import Mathlib

/-!
Verification development for the news-aggregation repository.

The Python sources are shallowly embedded below: strings are Lean
strings / lists of characters, machine integers are `Nat`/`Int`,
Python `float` scores are exact rationals (`ℚ`, or the unreduced
fraction type `Frac` where kernel evaluation is needed), fallible
network collaborators are `Except`/`Option` valued oracles, and the
SQLite `articles` table is a list of rows.  Each definition carries a
pointer to the source function it embeds.
-/

/-! ### MD5 (hashlib.md5(...).hexdigest())

The repository hashes with Python's `hashlib.md5` in
`scrapers/base_scraper.py` (`generate_article_id`) and
`utils/text_processing.py` (`generate_text_hash`).  The functions
below implement the MD5 message digest (RFC 1321) over byte lists,
little-endian, one padding pass and 64 rounds per 512-bit chunk,
exactly as `hashlib.md5(text.encode()).hexdigest()` computes it. -/

def rotl32 (x n : Nat) : Nat :=
  ((x <<< n) ||| (x >>> (32 - n))) % 4294967296

/-- Round constants of MD5 (RFC 1321, `floor(2^32 * abs(sin(i+1)))`). -/
def md5K : List Nat :=
  [0xd76aa478, 0xe8c7b756, 0x242070db, 0xc1bdceee,
   0xf57c0faf, 0x4787c62a, 0xa8304613, 0xfd469501,
   0x698098d8, 0x8b44f7af, 0xffff5bb1, 0x895cd7be,
   0x6b901122, 0xfd987193, 0xa679438e, 0x49b40821,
   0xf61e2562, 0xc040b340, 0x265e5a51, 0xe9b6c7aa,
   0xd62f105d, 0x02441453, 0xd8a1e681, 0xe7d3fbc8,
   0x21e1cde6, 0xc33707d6, 0xf4d50d87, 0x455a14ed,
   0xa9e3e905, 0xfcefa3f8, 0x676f02d9, 0x8d2a4c8a,
   0xfffa3942, 0x8771f681, 0x6d9d6122, 0xfde5380c,
   0xa4beea44, 0x4bdecfa9, 0xf6bb4b60, 0xbebfbc70,
   0x289b7ec6, 0xeaa127fa, 0xd4ef3085, 0x04881d05,
   0xd9d4d039, 0xe6db99e5, 0x1fa27cf8, 0xc4ac5665,
   0xf4292244, 0x432aff97, 0xab9423a7, 0xfc93a039,
   0x655b59c3, 0x8f0ccc92, 0xffeff47d, 0x85845dd1,
   0x6fa87e4f, 0xfe2ce6e0, 0xa3014314, 0x4e0811a1,
   0xf7537e82, 0xbd3af235, 0x2ad7d2bb, 0xeb86d391]

/-- Per-round left-rotation amounts of MD5. -/
def md5S : List Nat :=
  [7, 12, 17, 22, 7, 12, 17, 22, 7, 12, 17, 22, 7, 12, 17, 22,
   5, 9, 14, 20, 5, 9, 14, 20, 5, 9, 14, 20, 5, 9, 14, 20,
   4, 11, 16, 23, 4, 11, 16, 23, 4, 11, 16, 23, 4, 11, 16, 23,
   6, 10, 15, 21, 6, 10, 15, 21, 6, 10, 15, 21, 6, 10, 15, 21]

/-- One MD5 round on the state `(a, b, c, d)`, message words `m`. -/
def md5Step (m : List Nat) (st : Nat × Nat × Nat × Nat) (i : Nat) : Nat × Nat × Nat × Nat :=
  let a := st.1
  let b := st.2.1
  let c := st.2.2.1
  let d := st.2.2.2
  let f :=
    if i < 16 then (b &&& c) ||| ((b ^^^ 0xffffffff) &&& d)
    else if i < 32 then (d &&& b) ||| ((d ^^^ 0xffffffff) &&& c)
    else if i < 48 then b ^^^ c ^^^ d
    else c ^^^ (b ||| (d ^^^ 0xffffffff))
  let g :=
    if i < 16 then i
    else if i < 32 then (5 * i + 1) % 16
    else if i < 48 then (3 * i + 5) % 16
    else (7 * i) % 16
  let f2 := (f + a + md5K.getD i 0 + m.getD g 0) % 4294967296
  (d, (b + rotl32 f2 (md5S.getD i 0)) % 4294967296, b, c)

/-- Group a byte list into 32-bit little-endian words. -/
def toWords : List Nat → List Nat
  | b0 :: b1 :: b2 :: b3 :: rest =>
      (b0 + b1 * 256 + b2 * 65536 + b3 * 16777216) :: toWords rest
  | _ => []

/-- Process one 64-byte chunk of the padded message. -/
def md5Chunk (st : Nat × Nat × Nat × Nat) (chunk : List Nat) : Nat × Nat × Nat × Nat :=
  let m := toWords chunk
  let r := (List.range 64).foldl (md5Step m) st
  ((st.1 + r.1) % 4294967296, (st.2.1 + r.2.1) % 4294967296,
   (st.2.2.1 + r.2.2.1) % 4294967296, (st.2.2.2 + r.2.2.2) % 4294967296)

/-- The 64-bit message bit-length, little-endian. -/
def lenBytesLE (n : Nat) : List Nat :=
  (List.range 8).map (fun i => (n >>> (8 * i)) % 256)

/-- MD5 padding: a `0x80` byte, zeros to 56 mod 64, then the bit length. -/
def md5Pad (msg : List Nat) : List Nat :=
  let len := msg.length
  let z := (119 - (len % 64)) % 64
  msg ++ [128] ++ List.replicate z 0 ++ lenBytesLE ((len * 8) % 18446744073709551616)

/-- Split into 64-byte chunks; the fuel argument makes the recursion
structural so that the kernel can evaluate it (each step consumes at
least one element, so `l.length` steps suffice). -/
def chunks64Aux : Nat → List Nat → List (List Nat)
  | 0, _ => []
  | _, [] => []
  | fuel + 1, x :: xs => (x :: xs).take 64 :: chunks64Aux fuel ((x :: xs).drop 64)

def chunks64 (l : List Nat) : List (List Nat) :=
  chunks64Aux l.length l

def hexDigitChar (n : Nat) : Char :=
  if n < 10 then Char.ofNat (48 + n) else Char.ofNat (87 + n)

def byteToHex (n : Nat) : List Char :=
  [hexDigitChar (n / 16), hexDigitChar (n % 16)]

def wordToBytesLE (w : Nat) : List Nat :=
  [w % 256, (w >>> 8) % 256, (w >>> 16) % 256, (w >>> 24) % 256]

/-- MD5 digest of a byte list. -/
def md5Bytes (msg : List Nat) : List Nat :=
  let st := (chunks64 (md5Pad msg)).foldl md5Chunk
    (0x67452301, 0xefcdab89, 0x98badcfe, 0x10325476)
  wordToBytesLE st.1 ++ wordToBytesLE st.2.1 ++ wordToBytesLE st.2.2.1 ++ wordToBytesLE st.2.2.2

/-- UTF-8 encoding of one character (Python `str.encode()`). -/
def utf8Encode (c : Char) : List Nat :=
  let n := c.toNat
  if n < 128 then [n]
  else if n < 2048 then [192 + n / 64, 128 + n % 64]
  else if n < 65536 then [224 + n / 4096, 128 + (n / 64) % 64, 128 + n % 64]
  else [240 + n / 262144, 128 + (n / 4096) % 64, 128 + (n / 64) % 64, 128 + n % 64]

def stringBytes (s : String) : List Nat :=
  s.data.foldr (fun c acc => utf8Encode c ++ acc) []

/-- Python's `hashlib.md5(s.encode()).hexdigest()`. -/
def md5Hex (s : String) : String :=
  ⟨(md5Bytes (stringBytes s)).foldr (fun b acc => byteToHex b ++ acc) []⟩

/-! ### Character classes used by the text processor -/

/-- ASCII whitespace as recognised by Python's `str.split()` /
`str.strip()` (space, tab, newline, carriage return, vertical tab,
form feed). -/
def pyWs (c : Char) : Bool :=
  c = ' ' || c = '\t' || c = '\n' || c = '\r' || c = '\x0b' || c = '\x0c'

/-- Python's `string.punctuation`: the 32 ASCII characters in the code
ranges 33–47, 58–64, 91–96 and 123–126. -/
def pyPunct (c : Char) : Bool :=
  let n := c.toNat
  (33 ≤ n && n ≤ 47) || (58 ≤ n && n ≤ 64) || (91 ≤ n && n ≤ 96) || (123 ≤ n && n ≤ 126)

/-! ### Whitespace collapsing (text_processing.py line 57)

`' '.join(text.strip().split())`: split on whitespace runs (dropping
empty fragments, hence the leading `strip` is redundant) and re-join
with single spaces.  `wordsAcc` is a structural scanner with an
accumulator holding the current word reversed. -/

def wordsAcc : List Char → List Char → List (List Char)
  | [], acc => if acc = [] then [] else [acc.reverse]
  | c :: cs, acc =>
      if pyWs c then
        (if acc = [] then wordsAcc cs [] else acc.reverse :: wordsAcc cs [])
      else wordsAcc cs (c :: acc)

/-- Python `text.split()` (no separator argument). -/
def wordsOf (l : List Char) : List (List Char) :=
  wordsAcc l []

/-- Python `' '.join(pieces)`. -/
def spaceJoin : List (List Char) → List Char
  | [] => []
  | [w] => w
  | w :: w2 :: ws => w ++ ' ' :: spaceJoin (w2 :: ws)

/-- Python `' '.join(text.strip().split())`. -/
def wsCollapse (l : List Char) : List Char :=
  spaceJoin (wordsOf l)

/-- Python `text.strip()`. -/
def stripChars (l : List Char) : List Char :=
  ((l.dropWhile pyWs).reverse.dropWhile pyWs).reverse

/-! ### URL removal (text_processing.py line 60)

`re.sub(r'http[s]?://(?:[a-zA-Z]|[0-9]|[$-_@.&+]|[!*\\(\\),]|(?:%[0-9a-fA-F][0-9a-fA-F]))+', '', text)`.
The alternation admits exactly the letters, the digits, the character
range `$`–`_` (codes 36–95, which already contains `@ . & + * \ ( ) , %`
and the hex digits `0-9A-F`) and `!`; the `%hh` alternative only
consumes characters of that same set.  A greedy `(...)+` over
one-character alternatives therefore matches the maximal run of such
characters after the scheme, and `re.sub` removes, scanning left to
right, every `http://`-or-`https://` prefix followed by at least one
such character, resuming after the removed match. -/

def isUrlChar (c : Char) : Bool :=
  c.isAlpha || c.isDigit || (36 ≤ c.toNat && c.toNat ≤ 95) || c = '!'

/-- Try to match the URL regex at the head of `l`; on success return
the remainder after the (maximal, greedy) match.  `[s]?` is greedy, so
the `https` form is tried first. -/
def urlMatchRest (l : List Char) : Option (List Char) :=
  if ['h', 't', 't', 'p', 's', ':', '/', '/'].isPrefixOf l then
    let after := l.drop 8
    if (after.takeWhile isUrlChar) = [] then none else some (after.dropWhile isUrlChar)
  else if ['h', 't', 't', 'p', ':', '/', '/'].isPrefixOf l then
    let after := l.drop 7
    if (after.takeWhile isUrlChar) = [] then none else some (after.dropWhile isUrlChar)
  else none

/-- Left-to-right scan of `re.sub` for the URL pattern; the fuel makes
the recursion structural (every step consumes at least one character). -/
def subUrlAux : Nat → List Char → List Char
  | 0, l => l
  | _, [] => []
  | fuel + 1, c :: cs =>
      match urlMatchRest (c :: cs) with
      | some rest => subUrlAux fuel rest
      | none => c :: subUrlAux fuel cs

def subUrl (l : List Char) : List Char :=
  subUrlAux (l.length + 1) l

/-! ### Email removal (text_processing.py line 63)

`re.sub(r'\S+@\S+', '', text)`.  A match never crosses whitespace, so
it lives inside one maximal non-whitespace run.  At a position `p` of
such a run the pattern matches iff the suffix starting at `p` contains
an `@` that is neither its first nor its last character (at least one
non-space character before and after it); the greedy `\S+` then
extends the match to the end of the run.  `re.sub` removes from the
leftmost such position to the run's end and resumes after it. -/

def emailMatchableAt (s : List Char) : Bool :=
  ((s.drop 1).dropLast).contains '@'

/-- Replace, inside one whitespace-free run, the leftmost email match
(running to the end of the run) by nothing. -/
def emailSubRun : List Char → List Char
  | [] => []
  | y :: ys => if emailMatchableAt (y :: ys) then [] else y :: emailSubRun ys

def subEmailAux : Nat → List Char → List Char
  | 0, l => l
  | _, [] => []
  | fuel + 1, c :: cs =>
      if pyWs c then c :: subEmailAux fuel cs
      else
        emailSubRun (c :: cs.takeWhile (fun d => !pyWs d)) ++
          subEmailAux fuel (cs.dropWhile (fun d => !pyWs d))

def subEmail (l : List Char) : List Char :=
  subEmailAux (l.length + 1) l

/-! ### Punctuation-run collapsing (text_processing.py lines 66–68)

`re.sub(r'[.]{2,}', '.', text)` (and likewise for `!` and `?`)
replaces every maximal run of two or more copies of the character by a
single copy; equivalently, it drops each copy that is immediately
followed by another copy. -/

def collapseRuns (c : Char) : List Char → List Char
  | [] => []
  | [x] => [x]
  | x :: y :: rest =>
      if x = c ∧ y = c then collapseRuns c (y :: rest)
      else x :: collapseRuns c (y :: rest)

/-! ### TextProcessor (utils/text_processing.py) -/

/-- Stop words of `TextProcessor.__init__` (a Python set; the literal's
repeated members collapse). -/
def stop_words : List String :=
  ["a", "an", "and", "are", "as", "at", "be", "by", "for", "from",
   "has", "he", "in", "is", "it", "its", "of", "on", "that", "the",
   "to", "was", "were", "will", "with", "this", "but", "they",
   "have", "had", "what", "said", "each", "which", "she", "do", "how",
   "their", "if", "up", "out", "many", "then", "them", "these", "so",
   "some", "her", "would", "make", "like", "into", "him", "time",
   "two", "more", "go", "no", "way", "could", "my", "than",
   "first", "been", "call", "who", "now", "find", "long",
   "down", "day", "did", "get", "come", "made", "may", "part"]

/-- Positive lexicon of `TextProcessor.__init__`. -/
def positive_words : List String :=
  ["good", "great", "excellent", "amazing", "wonderful", "fantastic",
   "positive", "success", "win", "achieve", "breakthrough", "progress",
   "growth", "improve", "benefit", "gain", "rise", "boost", "strong",
   "effective", "efficient", "innovative", "outstanding", "remarkable",
   "impressive", "brilliant", "superb", "magnificent", "exceptional",
   "victory", "triumph", "advance", "develop", "enhance", "upgrade",
   "optimize", "expand", "flourish", "thrive", "prosper", "succeed"]

/-- Negative lexicon of `TextProcessor.__init__`. -/
def negative_words : List String :=
  ["bad", "terrible", "awful", "horrible", "negative", "fail", "failure",
   "crisis", "problem", "issue", "concern", "worry", "decline", "fall",
   "drop", "loss", "damage", "threat", "risk", "danger", "weak",
   "poor", "disappointing", "concerning", "alarming", "devastating",
   "tragic", "disaster", "collapse", "crash", "plunge", "suffer",
   "struggle", "conflict", "war", "attack", "violence", "death",
   "destroy", "eliminate", "reduce", "cut", "slash", "decrease"]

def toLowerStr (s : String) : String :=
  ⟨s.data.map Char.toLower⟩

/-- `TextProcessor.clean_text` (lines 51–73): collapse whitespace,
remove URL matches, remove email matches, collapse `.`/`!`/`?` runs,
strip; empty input maps to the empty string. -/
def clean_text (text : String) : String :=
  if text = "" then ""
  else
    ⟨stripChars (collapseRuns '?' (collapseRuns '!' (collapseRuns '.'
      (subEmail (subUrl (wsCollapse text.data))))))⟩

/-- `TextProcessor.tokenize` (lines 141–152): lowercase, delete
punctuation characters, split on whitespace, keep words that are not
stop words and are longer than 2 characters. -/
def tokenize (text : String) : List String :=
  if text = "" then []
  else
    ((wordsOf ((text.data.map Char.toLower).filter (fun c => !pyPunct c))).map
      (fun l => (⟨l⟩ : String))).filter
      (fun w => !stop_words.contains w && w.length > 2)

/-- `TextProcessor.split_sentences` (lines 124–139): split on runs of
`.`/`!`/`?`, strip each fragment, keep nonempty fragments longer than
10 characters.  Splitting at every single break character instead of
at maximal runs only adds empty fragments, which the length filter
discards, so the result is the same list. -/
def splitPunc : List Char → List Char → List (List Char)
  | [], acc => [acc.reverse]
  | c :: cs, acc =>
      if c = '.' ∨ c = '!' ∨ c = '?' then acc.reverse :: splitPunc cs []
      else splitPunc cs (c :: acc)

def split_sentences (text : String) : List String :=
  if text = "" then []
  else
    (((splitPunc text.data []).map stripChars).filter
      (fun l => !(l = []) && l.length > 10)).map (fun l => (⟨l⟩ : String))

/-- `TextProcessor.calculate_sentiment` (lines 178–198): ratio of
positive minus negative token counts over their sum, clamped to
`[-1, 1]`; `0` for empty text, no tokens, or no sentiment tokens. -/
def calculate_sentiment (text : String) : ℚ :=
  if text = "" then 0
  else
    let words := tokenize text
    if words = [] then 0
    else
      let positive_count := (words.filter (fun w => positive_words.contains w)).length
      let negative_count := (words.filter (fun w => negative_words.contains w)).length
      let total := positive_count + negative_count
      if total = 0 then 0
      else max (-1 : ℚ) (min 1 (((positive_count : ℚ) - (negative_count : ℚ)) / (total : ℚ)))

/-- English indicator words of `TextProcessor.detect_language`. -/
def english_indicators : List String :=
  ["the", "and", "is", "in", "to", "of", "a", "that", "it", "with"]

/-- Spanish indicator words of `TextProcessor.detect_language`. -/
def spanish_indicators : List String :=
  ["el", "la", "de", "que", "y", "en", "un", "es", "se", "no"]

/-- French indicator words of `TextProcessor.detect_language` (the
source list repeats `et`, and the generator iterates over the list, so
a text containing `et` scores it twice). -/
def french_indicators : List String :=
  ["le", "de", "et", "à", "un", "il", "être", "et", "en", "avoir"]

/-- Python's `pat in text` substring test. -/
def containsSub (hay pat : List Char) : Bool :=
  hay.tails.any (fun t => pat.isPrefixOf t)

/-- Number of indicator list entries occurring as substrings of the
text (`sum(1 for word in indicators if word in text_lower)`). -/
def indicatorCount (lower : List Char) (indicators : List String) : Nat :=
  (indicators.filter (fun w => containsSub lower w.data)).length

/-- `TextProcessor.detect_language` (lines 231–259). -/
def detect_language (text : String) : String :=
  if text = "" then "unknown"
  else
    let lower := text.data.map Char.toLower
    let english_count := indicatorCount lower english_indicators
    let spanish_count := indicatorCount lower spanish_indicators
    let french_count := indicatorCount lower french_indicators
    if english_count ≥ spanish_count ∧ english_count ≥ french_count then "english"
    else if spanish_count ≥ french_count then "spanish"
    else if french_count > 0 then "french"
    else "unknown"

/-- `TextProcessor.generate_text_hash` (lines 261–268):
`hashlib.md5(self.clean_text(text.lower()).encode()).hexdigest()`,
with the empty string mapped to the empty string. -/
def generate_text_hash (text : String) : String :=
  if text = "" then "" else md5Hex (clean_text (toLowerStr text))

/-! ### Exact score arithmetic for summarisation

`extract_summary` scores sentences with Python float arithmetic whose
operands here are exact small rationals (token counts over totals,
position ratios, a factor one half).  The scores are embedded as
unreduced integer fractions so that the kernel can evaluate them
(`ℚ` normalises through `Nat.gcd`, which the kernel cannot reduce);
positivity of every denominator is maintained by construction. -/

structure Frac where
  num : Int
  den : Int
deriving DecidableEq, Repr

def fadd (a b : Frac) : Frac :=
  ⟨a.num * b.den + b.num * a.den, a.den * b.den⟩

def fmul (a b : Frac) : Frac :=
  ⟨a.num * b.num, a.den * b.den⟩

/-- Comparison of fractions with positive denominators. -/
def fle (a b : Frac) : Bool :=
  a.num * b.den ≤ b.num * a.den

/-- Python `max(0, x)` on a fraction with positive denominator. -/
def fmax0 (a : Frac) : Frac :=
  if a.num < 0 then ⟨0, 1⟩ else a

/-- `TextProcessor.get_word_frequency` (lines 154–168) read back at
one key: the frequency dictionary holds `count/total` exactly for the
words occurring in the token list, so the scoring guard
`if word in word_freq` corresponds to the membership test here. -/
def word_frequency (textTokens : List String) (w : String) : Frac :=
  if textTokens.contains w then ⟨textTokens.count w, textTokens.length⟩ else ⟨0, 1⟩

/-- Sentence score of `TextProcessor.extract_summary` (lines 92–109):
sum of the sentence tokens' text-wide frequencies, plus ten times the
position ratio `max(0, (n - i)/n)`, halved when the sentence has fewer
than five tokens. -/
def sentence_score (textTokens : List String) (n i : Nat) (sentence : String) : Frac :=
  let words := tokenize sentence
  let base := words.foldl (fun acc w => fadd acc (word_frequency textTokens w)) ⟨0, 1⟩
  let boosted := fadd base (fmul ⟨10, 1⟩ (fmax0 ⟨(n : Int) - (i : Int), (n : Int)⟩))
  if words.length < 5 then fmul ⟨1, 2⟩ boosted else boosted

/-- Stable insertion of a scored sentence into a descending-sorted
list: skip entries with strictly greater score, and also entries with
equal score, which entered the list earlier. -/
def insertScored (x : Frac × String) : List (Frac × String) → List (Frac × String)
  | [] => [x]
  | y :: ys => if fle y.1 x.1 then x :: y :: ys else y :: insertScored x ys

/-- Python `list.sort(reverse=True, key=lambda x: x[0])` is the stable
descending sort by score — a function its output determines uniquely;
it is computed here by stable insertion. -/
def sortScoredDesc : List (Frac × String) → List (Frac × String)
  | [] => []
  | x :: xs => insertScored x (sortScoredDesc xs)

/-- Python `' '.join(sentences)`. -/
def joinSpace (ss : List String) : String :=
  ⟨spaceJoin (ss.map String.data)⟩

/-- Python `summary[:max_length] + ('...' if len(summary) > max_length else '')`. -/
def truncateEllipsis (s : String) (maxL : Nat) : String :=
  if s.length > maxL then ⟨s.data.take maxL ++ ['.', '.', '.']⟩ else s

/-- `TextProcessor.extract_summary` (lines 75–122). -/
def extract_summary (text : String) (max_sentences : Nat := 3) (max_length : Nat := 300) :
    String :=
  if text = "" then ""
  else
    let sentences := split_sentences text
    if sentences = [] then ""
    else if sentences.length ≤ max_sentences then
      truncateEllipsis (joinSpace sentences) max_length
    else
      let textTokens := tokenize text
      let n := sentences.length
      let scored := sentences.enum.map (fun p => (sentence_score textTokens n p.1 p.2, p.2))
      let top := ((sortScoredDesc scored).take max_sentences).map (fun p => p.2)
      truncateEllipsis (joinSpace (sentences.filter (fun s => top.contains s))) max_length

/-! ### Duplicate detection (text_processing.py lines 270–287) -/

/-- An article dictionary as `detect_duplicates` reads it: the
`content` and `title` entries, with a missing entry embedded as the
empty string (`article.get(..., '')`). -/
structure RawDoc where
  content : String
  title : String
deriving DecidableEq, Repr

/-- Python `article.get('content', '') or article.get('title', '')`:
the title replaces a falsy (empty) content. -/
def dupKey (a : RawDoc) : String :=
  if a.content ≠ "" then a.content else a.title

/-- The scanning loop of `detect_duplicates`: `i` is the index of the
head of `rest`, `seen` the first-occurrence map from content hash to
index (a Python dict used only through key lookup and fresh-key
insertion, so an association list is an exact model). -/
def detectDupAux : List RawDoc → Nat → List (String × Nat) → List (Nat × Nat)
  | [], _, _ => []
  | a :: rest, i, seen =>
      let k := dupKey a
      if k = "" then detectDupAux rest (i + 1) seen
      else
        let h := generate_text_hash k
        match seen.lookup h with
        | some j => (j, i) :: detectDupAux rest (i + 1) seen
        | none => detectDupAux rest (i + 1) ((h, i) :: seen)

/-- `TextProcessor.detect_duplicates`. -/
def detect_duplicates (articles : List RawDoc) : List (Nat × Nat) :=
  detectDupAux articles 0 []

/-! ### Articles, persistence and the aggregator
(news_scraper.py, scrapers/base_scraper.py) -/

/-- A row of the `articles` table in `news_scraper.py`
(`setup_database`, lines 57–74), which is also the article dictionary
shape the scrapers produce; the float `sentiment_score` is embedded as
an exact rational. -/
structure Article where
  id : String
  title : String
  content : String
  summary : String
  author : String
  published_date : String
  url : String
  source : String
  category : String
  scraped_at : String
  image_url : String
  word_count : Nat
  sentiment_score : ℚ
deriving DecidableEq, Repr

/-- An article value with every field empty, standing for a Python
dict with all-default entries. -/
def blankArticle : Article :=
  ⟨"", "", "", "", "", "", "", "", "", "", "", 0, 0⟩

/-- `BaseScraper.generate_article_id` (base_scraper.py lines 97–100):
the MD5 hex digest of the f-string interpolation of title and url
around an underscore, i.e. of `title + "_" + url`. -/
def generate_article_id (title url : String) : String :=
  md5Hex (title ++ "_" ++ url)

/-- `NewsAggregator.save_articles` (news_scraper.py lines 138–184)
acting on the `articles` table embedded as the list of its rows in
insertion order.  Per article: a `SELECT` on the url decides skipping;
otherwise the `INSERT` succeeds — incrementing the new-article count —
unless the `id` primary key is already taken, in which case the
`sqlite3.Error` is caught and the article is skipped without being
counted.  Returns the table and the count of newly inserted rows
(`ArticleRepository.save_articles` in database/models.py lines 225–260
implements the same insert-if-absent policy). -/
def save_articles : List Article → List Article → List Article × Nat
  | [], db => (db, 0)
  | a :: rest, db =>
      if db.any (fun r => r.url == a.url) then save_articles rest db
      else if db.any (fun r => r.id == a.id) then save_articles rest db
      else
        let r := save_articles rest (db ++ [a])
        (r.1, r.2 + 1)

/-- Number of rows of the table carrying the url `u`. -/
def countUrl (db : List Article) (u : String) : Nat :=
  (db.filter (fun r => r.url == u)).length

/-! ### The scrape orchestrator (base_scraper.py lines 126–170)

`scrape_all` drives external collaborators: the network and the HTML
parser (`get_article_links`, `scrape_article`, with `get_page` retry
logic inside them) and `urllib` (`is_valid_url`, `make_absolute_url`),
plus the clock.  They are embedded as an oracle record; a raised
exception is an `Except.error`, a fetch/extraction that produces no
article is `Except.ok none`.  The inter-article `random_delay` only
sleeps and does not affect the returned value. -/

structure ScrapeEnv where
  name : String
  now : String
  getLinksResult : Except String (List String)
  scrapeArticleResult : String → Except String (Option Article)
  validUrl : String → Bool
  absUrl : String → String

/-- One iteration of the `scrape_all` loop body on a candidate url:
rewrite invalid urls to absolute ones, scrape, and on success attach
source, scrape time and the deterministic id; a raised exception or an
empty extraction yields nothing. -/
def scrapeStep (env : ScrapeEnv) (url : String) : Option Article :=
  let u := if env.validUrl url then url else env.absUrl url
  match env.scrapeArticleResult u with
  | Except.error _ => none
  | Except.ok none => none
  | Except.ok (some a) =>
      some { a with
        source := env.name
        scraped_at := env.now
        id := generate_article_id a.title u }

/-- The `for` loop of `scrape_all` with its `articles` accumulator and
`successful_scrapes` counter. -/
def scrapeLoop (env : ScrapeEnv) : List String → List Article → Nat → List Article
  | [], acc, _ => acc
  | u :: rest, acc, k =>
      match scrapeStep env u with
      | some a => scrapeLoop env rest (acc ++ [a]) (k + 1)
      | none => scrapeLoop env rest acc k

/-- `BaseScraper.scrape_all`: a failing `get_article_links` or an
empty link list returns the empty batch; otherwise the first
`max_articles` candidates are processed in order. -/
def scrape_all (env : ScrapeEnv) (max_articles : Nat) : List Article :=
  match env.getLinksResult with
  | Except.error _ => []
  | Except.ok links =>
      if links = [] then [] else scrapeLoop env (links.take max_articles) [] 0

/-- `NewsAggregator.scrape_source` (news_scraper.py lines 103–136) as
seen by the cycle: the whole body is wrapped in `try/except`, so a
source whose scrape raises contributes the empty batch. -/
def scrape_source_result : Except String (List Article) → List Article
  | Except.ok arts => arts
  | Except.error _ => []

/-- `NewsAggregator.run_scraping_cycle` (news_scraper.py lines
200–230): the per-source outcomes are collected as the futures
complete and both running totals grow by the batch length (the
`if articles:` guard is the identity on counts, an empty batch adding
zero); the summed totals do not depend on completion order, so the
outcome list stands in for the future set. -/
def run_scraping_cycle (outcomes : List (Except String (List Article))) : Nat × Nat :=
  outcomes.foldl
    (fun t o =>
      (t.1 + (scrape_source_result o).length, t.2 + (scrape_source_result o).length))
    (0, 0)

/-- Positive word list of `NewsAggregator.calculate_basic_sentiment`
(news_scraper.py lines 285–290). -/
def basic_positive_words : List String :=
  ["good", "great", "excellent", "amazing", "wonderful", "fantastic",
   "positive", "success", "win", "achieve", "breakthrough", "progress",
   "growth", "improve", "benefit", "gain", "rise", "boost", "strong",
   "effective", "efficient", "innovative", "outstanding", "remarkable"]

/-- Negative word list of `NewsAggregator.calculate_basic_sentiment`
(news_scraper.py lines 292–297). -/
def basic_negative_words : List String :=
  ["bad", "terrible", "awful", "horrible", "negative", "fail", "failure",
   "crisis", "problem", "issue", "concern", "worry", "decline", "fall",
   "drop", "loss", "damage", "threat", "risk", "danger", "weak",
   "poor", "disappointing", "concerning", "alarming", "devastating"]

/-- `NewsAggregator.calculate_basic_sentiment` (news_scraper.py lines
280–307): like the text processor's sentiment but over
`text.lower().split()` words, without the clamp. -/
def calculate_basic_sentiment (text : String) : ℚ :=
  if text = "" then 0
  else
    let words := (wordsOf (text.data.map Char.toLower)).map (fun l => (⟨l⟩ : String))
    let positive_count := (words.filter (fun w => basic_positive_words.contains w)).length
    let negative_count := (words.filter (fun w => basic_negative_words.contains w)).length
    let total := positive_count + negative_count
    if total = 0 then 0
    else ((positive_count : ℚ) - (negative_count : ℚ)) / (total : ℚ)

/-- Push the `content or title` fallback of `detect_duplicates` into
the document: a document with empty content carries its title as
content instead. -/
def contentOrTitle (d : RawDoc) : RawDoc :=
  ⟨dupKey d, d.title⟩

/-- Ten candidate urls for a concrete orchestrator run. -/
def sampleLinks : List String :=
  ["u1", "u2", "u3", "u4", "u5", "u6", "u7", "u8", "u9", "u10"]

/-- A concrete oracle: ten candidate links of which `u3` raises during
fetch/extraction and `u7` extracts nothing; the other eight succeed. -/
def sampleEnv : ScrapeEnv where
  name := "BBC News"
  now := "2026-01-01T00:00:00"
  getLinksResult := Except.ok sampleLinks
  scrapeArticleResult := fun u =>
    if u = "u3" then Except.error "timeout"
    else if u = "u7" then Except.ok none
    else Except.ok (some { blankArticle with title := "T " ++ u, url := u, content := "body" })
  validUrl := fun _ => true
  absUrl := fun u => u

/-- The five-sentence text used to exercise `extract_summary`: the
first and third sentences are the same short sentence, the second and
fourth share a high-frequency token. -/
def summaryProbeText : String :=
  "zebra quokka walrus. orange orange orange orange orange melon. zebra quokka walrus. orange orange orange orange pumpkin apple. kiwi mango papaya grape lemonade fig."

/-- A concrete article used to exercise the persistence layer. -/
def sampleArticle : Article :=
  { blankArticle with id := "i1", title := "t", url := "u" }

/-- The shape of a `split()` result: every word is nonempty and free
of whitespace. -/
def IsWordList (ls : List (List Char)) : Prop :=
  ∀ w ∈ ls, w ≠ [] ∧ ∀ c ∈ w, pyWs c = false

/-! ## Theorems -/

/-- Helper: a ratio of the form `(p - n)/(p + n)` over counts lies in
`[-1, 1]`. -/
theorem ratio_bounds (p n : ℕ) (h : p + n ≠ 0) :
    -1 ≤ ((p : ℚ) - (n : ℚ)) / (((p + n : ℕ) : ℚ)) ∧
      ((p : ℚ) - (n : ℚ)) / (((p + n : ℕ) : ℚ)) ≤ 1 := by
  have hpos : (0 : ℚ) < ((p + n : ℕ) : ℚ) := by
    exact_mod_cast Nat.pos_of_ne_zero h
  have hp : (0 : ℚ) ≤ (p : ℚ) := Nat.cast_nonneg p
  have hn : (0 : ℚ) ≤ (n : ℚ) := Nat.cast_nonneg n
  constructor
  · rw [le_div_iff₀ hpos]
    push_cast
    linarith
  · rw [div_le_one₀ hpos]
    push_cast
    linarith

/-- C4.  Both sentiment scores lie in `[-1, 1]`; the empty text and
any text whose respective token lists carry no lexicon word score
exactly `0`. -/
theorem sentiment_in_range :
    ∀ t : String,
      (-1 ≤ calculate_sentiment t ∧ calculate_sentiment t ≤ 1) ∧
      (-1 ≤ calculate_basic_sentiment t ∧ calculate_basic_sentiment t ≤ 1) ∧
      calculate_sentiment "" = 0 ∧
      calculate_basic_sentiment "" = 0 ∧
      ((∀ w ∈ tokenize t, positive_words.contains w = false ∧
          negative_words.contains w = false) →
        calculate_sentiment t = 0) ∧
      ((∀ w ∈ (wordsOf (t.data.map Char.toLower)).map (fun l => (⟨l⟩ : String)),
          basic_positive_words.contains w = false ∧
          basic_negative_words.contains w = false) →
        calculate_basic_sentiment t = 0) := by
  intro t
  refine ⟨?_, ?_, by simp [calculate_sentiment], by simp [calculate_basic_sentiment], ?_, ?_⟩
  · simp only [calculate_sentiment]
    split_ifs with h1 h2 h3
    · norm_num
    · norm_num
    · norm_num
    · constructor
      · exact le_max_left _ _
      · exact max_le (by norm_num) (min_le_left _ _)
  · simp only [calculate_basic_sentiment]
    split_ifs with h1 h2
    · norm_num
    · norm_num
    · exact ratio_bounds _ _ h2
  · intro hw
    have hp : (tokenize t).filter (fun w => positive_words.contains w) = [] :=
      List.filter_eq_nil_iff.mpr fun w hm => by simpa using (hw w hm).1
    have hn : (tokenize t).filter (fun w => negative_words.contains w) = [] :=
      List.filter_eq_nil_iff.mpr fun w hm => by simpa using (hw w hm).2
    simp only [calculate_sentiment]
    split_ifs with h1 h2 h3
    · rfl
    · rfl
    · rfl
    · exact absurd (by rw [hp, hn]; rfl) h3
  · intro hw
    have hp : ((wordsOf (t.data.map Char.toLower)).map (fun l => (⟨l⟩ : String))).filter
        (fun w => basic_positive_words.contains w) = [] :=
      List.filter_eq_nil_iff.mpr fun w hm => by simpa using (hw w hm).1
    have hn : ((wordsOf (t.data.map Char.toLower)).map (fun l => (⟨l⟩ : String))).filter
        (fun w => basic_negative_words.contains w) = [] :=
      List.filter_eq_nil_iff.mpr fun w hm => by simpa using (hw w hm).2
    simp only [calculate_basic_sentiment]
    split_ifs with h1 h2
    · rfl
    · rfl
    · exact absurd (by rw [hp, hn]; rfl) h2

/-- Witness for C4 at the token-free text `zzz`. -/
theorem sentiment_in_range_witness :
    (-1 ≤ calculate_sentiment "zzz" ∧ calculate_sentiment "zzz" ≤ 1) ∧
    calculate_sentiment "zzz" = 0 ∧ calculate_basic_sentiment "zzz" = 0 :=
  ⟨(sentiment_in_range "zzz").1,
   (sentiment_in_range "zzz").2.2.2.2.1 (by decide),
   (sentiment_in_range "zzz").2.2.2.2.2 (by decide)⟩

/-- C2.  A source outcome that is an exception contributes nothing to
the cycle totals: erasing it from the outcome list leaves
`run_scraping_cycle` unchanged, and with three sources of which the
second raises, the totals are the summed lengths of the other two
batches, positive as soon as one of them is nonempty. -/
theorem cycle_failure_isolated :
    (∀ (pre post : List (Except String (List Article))) (e : String),
      run_scraping_cycle (pre ++ Except.error e :: post) = run_scraping_cycle (pre ++ post)) ∧
    (∀ (r1 r3 : List Article) (e : String),
      run_scraping_cycle [Except.ok r1, Except.error e, Except.ok r3] =
        (r1.length + r3.length, r1.length + r3.length) ∧
      (r1 ≠ [] ∨ r3 ≠ [] →
        0 < (run_scraping_cycle [Except.ok r1, Except.error e, Except.ok r3]).1)) := by
  constructor
  · intro pre post e
    simp [run_scraping_cycle, List.foldl_append, scrape_source_result]
  · intro r1 r3 e
    constructor
    · simp [run_scraping_cycle, scrape_source_result]
    · intro h
      have hpos : 0 < r1.length + r3.length := by
        rcases h with h | h
        · have := List.length_pos.mpr h
          omega
        · have := List.length_pos.mpr h
          omega
      simp [run_scraping_cycle, scrape_source_result]
      omega

/-- Witness for C2: one article from the first source, a raising
second source, an empty third source. -/
theorem cycle_failure_isolated_witness :
    run_scraping_cycle [Except.ok [blankArticle], Except.error "boom", Except.ok []] =
      ([blankArticle].length + List.length ([] : List Article),
       [blankArticle].length + List.length ([] : List Article)) ∧
    0 < (run_scraping_cycle
      [Except.ok [blankArticle], Except.error "boom", Except.ok []]).1 :=
  ⟨(cycle_failure_isolated.2 [blankArticle] [] "boom").1,
   (cycle_failure_isolated.2 [blankArticle] [] "boom").2 (Or.inl (by decide))⟩

set_option maxRecDepth 400000 in
/-- Counterexample to C5: the id joins title and url with an
underscore before hashing, so the distinct pairs `("a_b", "c")` and
`("a", "b_c")` hash the same string and receive identical ids. -/
theorem generate_article_id_collision :
    generate_article_id "a_b" "c" = generate_article_id "a" "b_c" ∧
    ("a_b", "c") ≠ (("a", "b_c") : String × String) := by
  constructor
  · decide
  · decide

/-- C5 (amended).  The article id is deterministic — equal inputs give
equal ids — and it depends on `(title, url)` only through the joined
string `title ++ "_" ++ url`, so distinct pairs with equal joined
strings receive equal ids. -/
theorem generate_article_id_key :
    (∀ t u t2 u2 : String, t = t2 → u = u2 →
      generate_article_id t u = generate_article_id t2 u2) ∧
    (∀ t1 u1 t2 u2 : String, t1 ++ "_" ++ u1 = t2 ++ "_" ++ u2 →
      generate_article_id t1 u1 = generate_article_id t2 u2) := by
  constructor
  · intro t u t2 u2 h1 h2
    rw [h1, h2]
  · intro t1 u1 t2 u2 h
    unfold generate_article_id
    rw [h]

/-- Witness for C5 (amended) at concrete titles and urls. -/
theorem generate_article_id_key_witness :
    generate_article_id "x" "y" = generate_article_id "x" "y" ∧
    generate_article_id "a_b" "c" = generate_article_id "a" "b_c" :=
  ⟨generate_article_id_key.1 "x" "y" "x" "y" rfl rfl,
   generate_article_id_key.2 "a_b" "c" "a" "b_c" (by decide)⟩

/-- Counterexample to C9: a nonempty text with zero counts for all
three indicator lists is classified `english`, not `unknown`. -/
theorem detect_language_zero_counts :
    indicatorCount ("zzz".data.map Char.toLower) english_indicators = 0 ∧
    indicatorCount ("zzz".data.map Char.toLower) spanish_indicators = 0 ∧
    indicatorCount ("zzz".data.map Char.toLower) french_indicators = 0 ∧
    detect_language "zzz" = "english" ∧
    detect_language "zzz" ≠ "unknown" := by
  refine ⟨by decide, by decide, by decide, by decide, by decide⟩

/-- C9 (amended).  On nonempty text the detector returns the language
with the highest indicator count, ties resolved english over spanish
over french, and never returns `unknown`; `unknown` is returned
exactly for the empty text (a nonempty text with all-zero counts falls
into the english tie case). -/
theorem detect_language_ranking :
    ∀ t : String,
      (t = "" → detect_language t = "unknown") ∧
      (t ≠ "" →
        detect_language t ≠ "unknown" ∧
        (detect_language t = "english" ↔
          indicatorCount (t.data.map Char.toLower) spanish_indicators ≤
              indicatorCount (t.data.map Char.toLower) english_indicators ∧
            indicatorCount (t.data.map Char.toLower) french_indicators ≤
              indicatorCount (t.data.map Char.toLower) english_indicators) ∧
        (detect_language t = "spanish" ↔
          indicatorCount (t.data.map Char.toLower) english_indicators <
              indicatorCount (t.data.map Char.toLower) spanish_indicators ∧
            indicatorCount (t.data.map Char.toLower) french_indicators ≤
              indicatorCount (t.data.map Char.toLower) spanish_indicators) ∧
        (detect_language t = "french" ↔
          indicatorCount (t.data.map Char.toLower) english_indicators <
              indicatorCount (t.data.map Char.toLower) french_indicators ∧
            indicatorCount (t.data.map Char.toLower) spanish_indicators <
              indicatorCount (t.data.map Char.toLower) french_indicators)) := by
  intro t
  constructor
  · intro h
    simp [detect_language, h]
  · intro h
    have hd : detect_language t =
        if indicatorCount (t.data.map Char.toLower) spanish_indicators ≤
              indicatorCount (t.data.map Char.toLower) english_indicators ∧
            indicatorCount (t.data.map Char.toLower) french_indicators ≤
              indicatorCount (t.data.map Char.toLower) english_indicators then "english"
        else if indicatorCount (t.data.map Char.toLower) french_indicators ≤
              indicatorCount (t.data.map Char.toLower) spanish_indicators then "spanish"
        else if 0 < indicatorCount (t.data.map Char.toLower) french_indicators then "french"
        else "unknown" := by
      simp [detect_language, h]
    rw [hd]
    split_ifs with h1 h2 h3
    · refine ⟨by decide, by simp [h1], ?_, ?_⟩
      · constructor
        · intro hx
          exact absurd hx (by decide)
        · intro hx
          omega
      · constructor
        · intro hx
          exact absurd hx (by decide)
        · intro hx
          omega
    · refine ⟨by decide, ?_, by simp; omega, ?_⟩
      · constructor
        · intro hx
          exact absurd hx (by decide)
        · intro hx
          omega
      · constructor
        · intro hx
          exact absurd hx (by decide)
        · intro hx
          omega
    · refine ⟨by decide, ?_, ?_, by simp; omega⟩
      · constructor
        · intro hx
          exact absurd hx (by decide)
        · intro hx
          omega
      · constructor
        · intro hx
          exact absurd hx (by decide)
        · intro hx
          omega
    · exfalso
      omega

/-- Witness for C9 (amended) at the empty text and at `zzz`. -/
theorem detect_language_ranking_witness :
    detect_language "" = "unknown" ∧ detect_language "zzz" ≠ "unknown" :=
  ⟨(detect_language_ranking "").1 rfl,
   ((detect_language_ranking "zzz").2 (by decide)).1⟩

/-- Helper: the orchestrator loop appends exactly the successful
extractions, in candidate order. -/
theorem scrapeLoop_eq_filterMap (env : ScrapeEnv) :
    ∀ (us : List String) (acc : List Article) (k : Nat),
      scrapeLoop env us acc k = acc ++ us.filterMap (scrapeStep env) := by
  intro us
  induction us with
  | nil => intro acc k; simp [scrapeLoop]
  | cons u rest ih =>
      intro acc k
      cases h : scrapeStep env u with
      | some a => simp [scrapeLoop, h, ih]
      | none => simp [scrapeLoop, h, ih]

/-- Helper: the length of a `filterMap` is the number of elements on
which the function succeeds. -/
theorem length_filterMap_eq_length_filter {α β : Type} (f : α → Option β) :
    ∀ l : List α, (l.filterMap f).length = (l.filter (fun a => (f a).isSome)).length := by
  intro l
  induction l with
  | nil => rfl
  | cons a rest ih =>
      cases h : f a with
      | some b => simp [List.filterMap_cons, List.filter_cons, h, ih]
      | none => simp [List.filterMap_cons, List.filter_cons, h, ih]

/-- C3.  With candidate links `links`, `scrape_all` returns exactly
the articles of the successfully fetched-and-extracted candidates
among the first `max_articles`, in list order (failures — exceptions
or empty extractions — are skipped), its length is the number of
successful candidates, and zero candidates yield the empty list; being
a total function, it propagates no exception. -/
theorem scrape_all_skips_failures :
    ∀ (env : ScrapeEnv) (maxA : Nat) (links : List String),
      env.getLinksResult = Except.ok links →
      scrape_all env maxA = (links.take maxA).filterMap (scrapeStep env) ∧
      (scrape_all env maxA).length =
        ((links.take maxA).filter (fun u => (scrapeStep env u).isSome)).length ∧
      (links = [] → scrape_all env maxA = []) := by
  intro env maxA links h
  have h1 : scrape_all env maxA = (links.take maxA).filterMap (scrapeStep env) := by
    simp only [scrape_all, h]
    by_cases hl : links = []
    · simp [hl]
    · simp [hl, scrapeLoop_eq_filterMap]
  refine ⟨h1, ?_, ?_⟩
  · rw [h1, length_filterMap_eq_length_filter]
  · intro hl
    rw [h1, hl]
    simp

/-- Witness for C3: ten candidates of which two fail give eight
articles. -/
theorem scrape_all_skips_failures_witness :
    (scrape_all sampleEnv 25).length = 8 := by
  have h := (scrape_all_skips_failures sampleEnv 25 sampleLinks rfl).2.1
  rw [h]
  decide

/-- Helper: the fallback key of a document whose title was pushed into
the content slot is unchanged. -/
theorem dupKey_contentOrTitle (d : RawDoc) : dupKey (contentOrTitle d) = dupKey d := by
  by_cases hc : d.content = ""
  · simp only [contentOrTitle, dupKey, hc]
    split_ifs <;> simp_all
  · simp only [contentOrTitle, dupKey, hc]
    split_ifs <;> simp_all

/-- Helper: the duplicate scan only reads documents through their
fallback key. -/
theorem detectDupAux_map_contentOrTitle :
    ∀ (docs : List RawDoc) (i : Nat) (seen : List (String × Nat)),
      detectDupAux (docs.map contentOrTitle) i seen = detectDupAux docs i seen := by
  intro docs
  induction docs with
  | nil => intro i seen; rfl
  | cons a rest ih =>
      intro i seen
      simp only [List.map_cons, detectDupAux, dupKey_contentOrTitle]
      split_ifs with h
      · exact ih _ _
      · cases hn : (seen.lookup (generate_text_hash (dupKey a))) with
        | some j => simp [hn, ih]
        | none => simp [hn, ih]

/-- Helper: a successful association-list lookup returns the value of
some stored entry. -/
theorem lookup_entry_val :
    ∀ (seen : List (String × Nat)) (h : String) (j : Nat),
      seen.lookup h = some j → ∃ e ∈ seen, e.2 = j := by
  intro seen
  induction seen with
  | nil => intro h j hj; simp [List.lookup] at hj
  | cons p rest ih =>
      intro h j hj
      obtain ⟨pk, pv⟩ := p
      cases hph : (h == pk) with
      | true =>
          have hv : pv = j := by simpa [List.lookup, hph] using hj
          exact ⟨(pk, pv), List.mem_cons_self _ _, hv⟩
      | false =>
          have hr : rest.lookup h = some j := by simpa [List.lookup, hph] using hj
          obtain ⟨e, he, hej⟩ := ih h j hr
          exact ⟨e, List.mem_cons_of_mem _ he, hej⟩

/-- Helper: indices that never enter the scan (their key is empty) and
never sit in the map are absent from all emitted pairs. -/
theorem detectDupAux_avoid :
    ∀ (rest : List RawDoc) (i : Nat) (seen : List (String × Nat)) (k : Nat),
      (∀ e ∈ seen, e.2 ≠ k) →
      (∀ m d, rest.get? m = some d → dupKey d ≠ "" → i + m ≠ k) →
      ∀ p ∈ detectDupAux rest i seen, p.1 ≠ k ∧ p.2 ≠ k := by
  intro rest
  induction rest with
  | nil => intro i seen k _ _ p hp; simp [detectDupAux] at hp
  | cons a tail ih =>
      intro i seen k hseen hrest p hp
      simp only [detectDupAux] at hp
      by_cases hk : dupKey a = ""
      · rw [if_pos hk] at hp
        refine ih (i + 1) seen k hseen ?_ p hp
        intro m d hm hd
        have := hrest (m + 1) d (by simpa using hm) hd
        omega
      · rw [if_neg hk] at hp
        have hi : i ≠ k := by
          have := hrest 0 a rfl hk
          omega
        cases hl : (seen.lookup (generate_text_hash (dupKey a))) with
        | some j =>
            rw [hl] at hp
            simp only [List.mem_cons] at hp
            rcases hp with rfl | hp
            · obtain ⟨e, he, hej⟩ := lookup_entry_val _ _ _ hl
              exact ⟨by rw [← hej]; exact hseen e he, hi⟩
            · refine ih (i + 1) seen k hseen ?_ p hp
              intro m d hm hd
              have := hrest (m + 1) d (by simpa using hm) hd
              omega
        | none =>
            rw [hl] at hp
            refine ih (i + 1) _ k ?_ ?_ p hp
            · intro e he
              rcases List.mem_cons.mp he with rfl | he'
              · exact hi
              · exact hseen e he'
            · intro m d hm hd
              have := hrest (m + 1) d (by simpa using hm) hd
              omega

/-- C10.  The duplicate detector keys an article by its content and
falls back to its title when the content is empty — pushing the title
into the content slot changes nothing — and an article with empty
content and empty title is skipped entirely: its index appears in no
returned pair and never serves as a first occurrence. -/
theorem detect_duplicates_title_fallback :
    (∀ docs : List RawDoc,
      detect_duplicates (docs.map contentOrTitle) = detect_duplicates docs) ∧
    (∀ (docs : List RawDoc) (k : Nat) (d : RawDoc),
      docs.get? k = some d → d.content = "" → d.title = "" →
      ∀ p ∈ detect_duplicates docs, p.1 ≠ k ∧ p.2 ≠ k) := by
  constructor
  · intro docs
    exact detectDupAux_map_contentOrTitle docs 0 []
  · intro docs k d hget hc ht p hp
    refine detectDupAux_avoid docs 0 [] k (by simp) ?_ p hp
    intro m e hm he
    intro hmk
    have hm' : m = k := by omega
    subst hm'
    rw [hm] at hget
    injection hget with hed
    exact he (by rw [hed]; simp [dupKey, hc, ht])

set_option maxRecDepth 400000 in
/-- Witness for C10: the document at index 1 is fully empty and is
absent from the returned pair, which links the two equal contents. -/
theorem detect_duplicates_title_fallback_witness :
    detect_duplicates [⟨"aa", ""⟩, ⟨"", ""⟩, ⟨"aa", "x"⟩] = [(0, 2)] ∧
    (((0, 2) : Nat × Nat).1 ≠ 1 ∧ ((0, 2) : Nat × Nat).2 ≠ 1) :=
  ⟨by decide,
   detect_duplicates_title_fallback.2 [⟨"aa", ""⟩, ⟨"", ""⟩, ⟨"aa", "x"⟩] 1 ⟨"", ""⟩
     rfl rfl rfl (0, 2) (by decide)⟩

/-- Helper: once a row with url `u` is stored, every article carrying
url `u` is a complete no-op for `save_articles` — dropping those
articles from the batch changes neither the table nor the count. -/
theorem save_articles_skip_url :
    ∀ (arts db : List Article) (u : String),
      (∃ r ∈ db, r.url = u) →
      save_articles arts db = save_articles (arts.filter (fun a => !(a.url == u))) db := by
  intro arts
  induction arts with
  | nil => intro db u h; rfl
  | cons a rest ih =>
      intro db u h
      by_cases hau : a.url = u
      · have hany : db.any (fun r => r.url == a.url) = true := by
          obtain ⟨r, hr, hru⟩ := h
          exact List.any_eq_true.mpr ⟨r, hr, by simp [hru, hau]⟩
        have hfil : (a :: rest).filter (fun x => !(x.url == u)) =
            rest.filter (fun x => !(x.url == u)) := by
          simp [List.filter_cons, hau]
        rw [hfil]
        simp only [save_articles, hany, if_true]
        exact ih db u h
      · have hfil : (a :: rest).filter (fun x => !(x.url == u)) =
            a :: rest.filter (fun x => !(x.url == u)) := by
          simp [List.filter_cons, hau]
        rw [hfil]
        simp only [save_articles]
        by_cases h1 : db.any (fun r => r.url == a.url) = true
        · simp only [h1, if_true]
          exact ih db u h
        · by_cases h2 : db.any (fun r => r.id == a.id) = true
          · simp only [h1, h2, if_true, if_false, Bool.false_eq_true]
            exact ih db u h
          · simp only [h1, h2, if_false, Bool.false_eq_true]
            have h' : ∃ r ∈ db ++ [a], r.url = u := by
              obtain ⟨r, hr, hru⟩ := h
              exact ⟨r, by simp [hr], hru⟩
            rw [ih (db ++ [a]) u h']

/-- Helper: saving a batch none of whose articles carries url `u`
leaves the rows with url `u` untouched. -/
theorem save_articles_filter_untouched :
    ∀ (arts db : List Article) (u : String),
      (∀ a ∈ arts, a.url ≠ u) →
      (save_articles arts db).1.filter (fun r => r.url == u) =
        db.filter (fun r => r.url == u) := by
  intro arts
  induction arts with
  | nil => intro db u _; rfl
  | cons a rest ih =>
      intro db u h
      have hau : a.url ≠ u := h a (List.mem_cons_self _ _)
      have hrest : ∀ x ∈ rest, x.url ≠ u := fun x hx => h x (List.mem_cons_of_mem _ hx)
      simp only [save_articles]
      by_cases h1 : db.any (fun r => r.url == a.url) = true
      · simp only [h1, if_true]
        exact ih db u hrest
      · by_cases h2 : db.any (fun r => r.id == a.id) = true
        · simp only [h1, h2, if_true, if_false, Bool.false_eq_true]
          exact ih db u hrest
        · simp only [h1, h2, if_false, Bool.false_eq_true]
          rw [ih (db ++ [a]) u hrest, List.filter_append]
          have : [a].filter (fun r => r.url == u) = [] := by
            simp [List.filter_cons, hau]
          rw [this, List.append_nil]

/-- Helper: once a row with url `u` is stored, later saves leave the
rows with url `u` exactly as they are. -/
theorem save_articles_preserves_url_rows :
    ∀ (arts db : List Article) (u : String),
      (∃ r ∈ db, r.url = u) →
      (save_articles arts db).1.filter (fun r => r.url == u) =
        db.filter (fun r => r.url == u) := by
  intro arts db u h
  rw [save_articles_skip_url arts db u h]
  apply save_articles_filter_untouched
  intro a ha
  have := (List.mem_filter.mp ha).2
  simpa using this

/-- Helper: saving a batch that contains an article with the fresh url
`u` (fresh ids, no id collisions) stores exactly one row with url `u`. -/
theorem save_articles_inserts_new_url :
    ∀ (arts db : List Article) (u : String),
      countUrl db u = 0 →
      (∃ a ∈ arts, a.url = u) →
      (arts.map (fun a => a.id)).Nodup →
      (∀ a ∈ arts, ∀ r ∈ db, r.id ≠ a.id) →
      countUrl (save_articles arts db).1 u = 1 := by
  intro arts
  induction arts with
  | nil =>
      intro db u _ hex
      simp at hex
  | cons a rest ih =>
      intro db u h0 hex hnd hfresh
      have hfe : db.filter (fun r => r.url == u) = [] := by
        have : (db.filter (fun r => r.url == u)).length = 0 := h0
        exact List.length_eq_zero.mp this
      by_cases hau : a.url = u
      · have hany : db.any (fun r => r.url == a.url) = false := by
          rw [List.any_eq_false]
          intro r hr hru
          have hrw : r.url = u := by rw [← hau]; exact eq_of_beq hru
          have : r ∈ db.filter (fun x => x.url == u) :=
            List.mem_filter.mpr ⟨hr, by simp [hrw]⟩
          rw [hfe] at this
          exact absurd this (List.not_mem_nil r)
        have hid : db.any (fun r => r.id == a.id) = false := by
          rw [List.any_eq_false]
          intro r hr hru
          exact hfresh a (List.mem_cons_self _ _) r hr (eq_of_beq hru)
        simp only [save_articles, hany, hid, if_false, Bool.false_eq_true]
        have hmem : ∃ r ∈ db ++ [a], r.url = u := ⟨a, by simp, hau⟩
        have hpres := save_articles_preserves_url_rows rest (db ++ [a]) u hmem
        unfold countUrl
        rw [hpres, List.filter_append, hfe]
        simp [List.filter_cons, hau]
      · have hex' : ∃ x ∈ rest, x.url = u := by
          obtain ⟨x, hx, hxu⟩ := hex
          rcases List.mem_cons.mp hx with rfl | hx'
          · exact absurd hxu hau
          · exact ⟨x, hx', hxu⟩
        have hndc : a.id ∉ rest.map (fun x => x.id) ∧ (rest.map (fun x => x.id)).Nodup := by
          have : (a.id :: rest.map (fun x => x.id)).Nodup := by simpa using hnd
          exact List.nodup_cons.mp this
        have hfr : ∀ x ∈ rest, ∀ r ∈ db, r.id ≠ x.id :=
          fun x hx => hfresh x (List.mem_cons_of_mem _ hx)
        simp only [save_articles]
        by_cases h1 : db.any (fun r => r.url == a.url) = true
        · simp only [h1, if_true]
          exact ih db u h0 hex' hndc.2 hfr
        · by_cases h2 : db.any (fun r => r.id == a.id) = true
          · simp only [h1, h2, if_true, if_false, Bool.false_eq_true]
            exact ih db u h0 hex' hndc.2 hfr
          · simp only [h1, h2, if_false, Bool.false_eq_true]
            apply ih (db ++ [a]) u
            · unfold countUrl
              rw [List.filter_append, hfe]
              simp [List.filter_cons, hau]
            · exact hex'
            · exact hndc.2
            · intro x hx r hr
              rcases List.mem_append.mp hr with hr' | hr'
              · exact hfr x hx r hr'
              · rcases List.mem_singleton.mp hr' with rfl
                intro hcontra
                exact hndc.1 (by rw [hcontra]; exact List.mem_map_of_mem _ hx)

/-- C1.  Starting from a table with no row for url `u`, saving a batch
containing an article with url `u` (under normal operation: batch ids
pairwise distinct and fresh) stores exactly one row with url `u`; a
second save — any later batch — keeps exactly that one row, leaves all
its fields unchanged, and articles with url `u` in the second batch
are skipped without being counted as new (the second batch's count
equals the count with those articles removed). -/
theorem save_articles_unique_url :
    ∀ (db arts1 arts2 : List Article) (u : String),
      countUrl db u = 0 →
      (∃ a ∈ arts1, a.url = u) →
      (arts1.map (fun a => a.id)).Nodup →
      (∀ a ∈ arts1, ∀ r ∈ db, r.id ≠ a.id) →
      countUrl (save_articles arts1 db).1 u = 1 ∧
      (save_articles arts2 (save_articles arts1 db).1).1.filter (fun r => r.url == u) =
        (save_articles arts1 db).1.filter (fun r => r.url == u) ∧
      countUrl (save_articles arts2 (save_articles arts1 db).1).1 u = 1 ∧
      (save_articles arts2 (save_articles arts1 db).1).2 =
        (save_articles (arts2.filter (fun a => !(a.url == u)))
          (save_articles arts1 db).1).2 := by
  intro db arts1 arts2 u h0 hex hnd hfresh
  have h1 : countUrl (save_articles arts1 db).1 u = 1 :=
    save_articles_inserts_new_url arts1 db u h0 hex hnd hfresh
  have hmem : ∃ r ∈ (save_articles arts1 db).1, r.url = u := by
    have hne : (save_articles arts1 db).1.filter (fun r => r.url == u) ≠ [] := by
      intro hfe
      have : countUrl (save_articles arts1 db).1 u = 0 := by
        unfold countUrl
        rw [hfe]
        rfl
      omega
    obtain ⟨r, hr⟩ := List.exists_mem_of_ne_nil _ hne
    exact ⟨r, (List.mem_filter.mp hr).1, by simpa using (List.mem_filter.mp hr).2⟩
  refine ⟨h1, save_articles_preserves_url_rows arts2 _ u hmem, ?_, ?_⟩
  · unfold countUrl
    rw [save_articles_preserves_url_rows arts2 _ u hmem]
    exact h1
  · exact congrArg Prod.snd (save_articles_skip_url arts2 _ u hmem)

/-- Witness for C1: the same one-article batch saved twice into an
empty table leaves exactly one row for its url. -/
theorem save_articles_unique_url_witness :
    countUrl (save_articles [sampleArticle] []).1 "u" = 1 ∧
    countUrl (save_articles [sampleArticle] (save_articles [sampleArticle] []).1).1 "u" = 1 :=
  ⟨(save_articles_unique_url [] [sampleArticle] [sampleArticle] "u" (by decide)
      ⟨sampleArticle, List.mem_singleton.mpr rfl, rfl⟩ (by decide) (by simp)).1,
   (save_articles_unique_url [] [sampleArticle] [sampleArticle] "u" (by decide)
      ⟨sampleArticle, List.mem_singleton.mpr rfl, rfl⟩ (by decide) (by simp)).2.2.1⟩

/-- Helper: an association-list lookup misses when no stored key
equals the query. -/
theorem lookup_none_of_all_ne :
    ∀ (seen : List (String × Nat)) (h : String),
      (∀ e ∈ seen, e.1 ≠ h) → seen.lookup h = none := by
  intro seen
  induction seen with
  | nil => intro h _; rfl
  | cons p rest ih =>
      intro h hne
      obtain ⟨pk, pv⟩ := p
      have hb : (h == pk) = false :=
        beq_eq_false_iff_ne.mpr (Ne.symm (hne (pk, pv) (List.mem_cons_self _ _)))
      simp [List.lookup, hb, ih h (fun e he => hne e (List.mem_cons_of_mem _ he))]

/-- Helper: a tail of documents whose hashes are pairwise distinct and
distinct from every hash already in the map emits no further pairs. -/
theorem detectDupAux_all_fresh :
    ∀ (rest : List RawDoc) (i : Nat) (seen : List (String × Nat)),
      (∀ m d, rest.get? m = some d → dupKey d ≠ "") →
      (∀ m d, rest.get? m = some d →
        ∀ e ∈ seen, e.1 ≠ generate_text_hash (dupKey d)) →
      (∀ m m' d d', m < m' → rest.get? m = some d → rest.get? m' = some d' →
        generate_text_hash (dupKey d) ≠ generate_text_hash (dupKey d')) →
      detectDupAux rest i seen = [] := by
  intro rest
  induction rest with
  | nil => intro i seen _ _ _; rfl
  | cons a tail ih =>
      intro i seen hk hs hp
      have hka : dupKey a ≠ "" := hk 0 a rfl
      have hla : seen.lookup (generate_text_hash (dupKey a)) = none :=
        lookup_none_of_all_ne seen _ (fun e he => hs 0 a rfl e he)
      simp only [detectDupAux, if_neg hka, hla]
      apply ih (i + 1)
      · intro m d hm
        exact hk (m + 1) d (by simpa using hm)
      · intro m d hm e he
        rcases List.mem_cons.mp he with rfl | he'
        · simpa using hp 0 (m + 1) a d (by omega) rfl (by simpa using hm)
        · exact hs (m + 1) d (by simpa using hm) e he'
      · intro m m' d d' hmm hm hm'
        exact hp (m + 1) (m' + 1) d d' (by omega) (by simpa using hm) (by simpa using hm')

/-- Helper: indexing past six explicit heads. -/
theorem get?_cons_six {α : Type} (a b c d e f : α) (rest : List α) (m : Nat) :
    (a :: b :: c :: d :: e :: f :: rest).get? (6 + m) = rest.get? m := by
  have h : 6 + m = (((((m + 1) + 1) + 1) + 1) + 1) + 1 := by omega
  rw [h]
  simp [List.get?_cons_succ]

/-- C8.  In a batch of at least six articles with nonempty keys whose
content hashes are pairwise distinct except that the articles at
indices 2 and 5 share one, `detect_duplicates` returns exactly the
pair `(2, 5)`: the later duplicate is paired with the first occurrence
of its hash and nothing else is emitted. -/
theorem detect_duplicates_single_pair :
    ∀ docs : List RawDoc,
      6 ≤ docs.length →
      (∀ d ∈ docs, dupKey d ≠ "") →
      (∀ i j : Fin docs.length, (i : Nat) < (j : Nat) →
        (generate_text_hash (dupKey (docs.get i)) = generate_text_hash (dupKey (docs.get j)) ↔
          ((i : Nat) = 2 ∧ (j : Nat) = 5))) →
      detect_duplicates docs = [(2, 5)] := by
  intro docs hlen hkeys hpair
  rcases docs with _ | ⟨d0, docs⟩; · simp at hlen
  rcases docs with _ | ⟨d1, docs⟩; · simp at hlen
  rcases docs with _ | ⟨d2, docs⟩; · simp at hlen
  rcases docs with _ | ⟨d3, docs⟩; · simp at hlen
  rcases docs with _ | ⟨d4, docs⟩; · simp at hlen
  rcases docs with _ | ⟨d5, rest⟩; · simp at hlen
  have hlen6 : ∀ k, k < 6 → k < (d0 :: d1 :: d2 :: d3 :: d4 :: d5 :: rest).length := by
    intro k hk
    simp only [List.length_cons]
    omega
  have hp' : ∀ (i j : Nat) (hi : i < (d0 :: d1 :: d2 :: d3 :: d4 :: d5 :: rest).length)
      (hj : j < (d0 :: d1 :: d2 :: d3 :: d4 :: d5 :: rest).length), i < j → ¬(i = 2 ∧ j = 5) →
      generate_text_hash (dupKey ((d0 :: d1 :: d2 :: d3 :: d4 :: d5 :: rest).get ⟨i, hi⟩)) ≠
        generate_text_hash (dupKey ((d0 :: d1 :: d2 :: d3 :: d4 :: d5 :: rest).get ⟨j, hj⟩)) := by
    intro i j hi hj hij hne heq
    exact hne ((hpair ⟨i, hi⟩ ⟨j, hj⟩ hij).mp heq)
  have hk0 : dupKey d0 ≠ "" := hkeys d0 (by simp)
  have hk1 : dupKey d1 ≠ "" := hkeys d1 (by simp)
  have hk2 : dupKey d2 ≠ "" := hkeys d2 (by simp)
  have hk3 : dupKey d3 ≠ "" := hkeys d3 (by simp)
  have hk4 : dupKey d4 ≠ "" := hkeys d4 (by simp)
  have hk5 : dupKey d5 ≠ "" := hkeys d5 (by simp)
  have hne01 : generate_text_hash (dupKey d0) ≠ generate_text_hash (dupKey d1) := by
    simpa using hp' 0 1 (hlen6 0 (by omega)) (hlen6 1 (by omega)) (by omega) (by omega)
  have hne02 : generate_text_hash (dupKey d0) ≠ generate_text_hash (dupKey d2) := by
    simpa using hp' 0 2 (hlen6 0 (by omega)) (hlen6 2 (by omega)) (by omega) (by omega)
  have hne03 : generate_text_hash (dupKey d0) ≠ generate_text_hash (dupKey d3) := by
    simpa using hp' 0 3 (hlen6 0 (by omega)) (hlen6 3 (by omega)) (by omega) (by omega)
  have hne04 : generate_text_hash (dupKey d0) ≠ generate_text_hash (dupKey d4) := by
    simpa using hp' 0 4 (hlen6 0 (by omega)) (hlen6 4 (by omega)) (by omega) (by omega)
  have hne05 : generate_text_hash (dupKey d0) ≠ generate_text_hash (dupKey d5) := by
    simpa using hp' 0 5 (hlen6 0 (by omega)) (hlen6 5 (by omega)) (by omega) (by omega)
  have hne12 : generate_text_hash (dupKey d1) ≠ generate_text_hash (dupKey d2) := by
    simpa using hp' 1 2 (hlen6 1 (by omega)) (hlen6 2 (by omega)) (by omega) (by omega)
  have hne13 : generate_text_hash (dupKey d1) ≠ generate_text_hash (dupKey d3) := by
    simpa using hp' 1 3 (hlen6 1 (by omega)) (hlen6 3 (by omega)) (by omega) (by omega)
  have hne14 : generate_text_hash (dupKey d1) ≠ generate_text_hash (dupKey d4) := by
    simpa using hp' 1 4 (hlen6 1 (by omega)) (hlen6 4 (by omega)) (by omega) (by omega)
  have hne15 : generate_text_hash (dupKey d1) ≠ generate_text_hash (dupKey d5) := by
    simpa using hp' 1 5 (hlen6 1 (by omega)) (hlen6 5 (by omega)) (by omega) (by omega)
  have hne23 : generate_text_hash (dupKey d2) ≠ generate_text_hash (dupKey d3) := by
    simpa using hp' 2 3 (hlen6 2 (by omega)) (hlen6 3 (by omega)) (by omega) (by omega)
  have hne24 : generate_text_hash (dupKey d2) ≠ generate_text_hash (dupKey d4) := by
    simpa using hp' 2 4 (hlen6 2 (by omega)) (hlen6 4 (by omega)) (by omega) (by omega)
  have hne34 : generate_text_hash (dupKey d3) ≠ generate_text_hash (dupKey d4) := by
    simpa using hp' 3 4 (hlen6 3 (by omega)) (hlen6 4 (by omega)) (by omega) (by omega)
  have hne35 : generate_text_hash (dupKey d3) ≠ generate_text_hash (dupKey d5) := by
    simpa using hp' 3 5 (hlen6 3 (by omega)) (hlen6 5 (by omega)) (by omega) (by omega)
  have hne45 : generate_text_hash (dupKey d4) ≠ generate_text_hash (dupKey d5) := by
    simpa using hp' 4 5 (hlen6 4 (by omega)) (hlen6 5 (by omega)) (by omega) (by omega)
  have h25 : generate_text_hash (dupKey d2) = generate_text_hash (dupKey d5) := by
    have := (hpair ⟨2, hlen6 2 (by omega)⟩ ⟨5, hlen6 5 (by omega)⟩ (by norm_num)).mpr
      (by norm_num)
    simpa using this
  have hl0 : List.lookup (generate_text_hash (dupKey d0)) ([] : List (String × Nat)) =
      none := rfl
  have hl1 : List.lookup (generate_text_hash (dupKey d1))
      [(generate_text_hash (dupKey d0), 0)] = none := by
    apply lookup_none_of_all_ne
    intro e he
    rcases List.mem_singleton.mp he with rfl
    exact hne01
  have hl2 : List.lookup (generate_text_hash (dupKey d2))
      [(generate_text_hash (dupKey d1), 1), (generate_text_hash (dupKey d0), 0)] = none := by
    apply lookup_none_of_all_ne
    intro e he
    simp only [List.mem_cons, List.mem_singleton] at he
    rcases he with rfl | rfl | h
    · exact hne12
    · exact hne02
    · simp at h
  have hl3 : List.lookup (generate_text_hash (dupKey d3))
      [(generate_text_hash (dupKey d2), 2), (generate_text_hash (dupKey d1), 1),
       (generate_text_hash (dupKey d0), 0)] = none := by
    apply lookup_none_of_all_ne
    intro e he
    simp only [List.mem_cons, List.mem_singleton] at he
    rcases he with rfl | rfl | rfl | h
    · exact hne23
    · exact hne13
    · exact hne03
    · simp at h
  have hl4 : List.lookup (generate_text_hash (dupKey d4))
      [(generate_text_hash (dupKey d3), 3), (generate_text_hash (dupKey d2), 2),
       (generate_text_hash (dupKey d1), 1), (generate_text_hash (dupKey d0), 0)] = none := by
    apply lookup_none_of_all_ne
    intro e he
    simp only [List.mem_cons, List.mem_singleton] at he
    rcases he with rfl | rfl | rfl | rfl | h
    · exact hne34
    · exact hne24
    · exact hne14
    · exact hne04
    · simp at h
  have hb54 : (generate_text_hash (dupKey d5) == generate_text_hash (dupKey d4)) = false :=
    beq_eq_false_iff_ne.mpr (Ne.symm hne45)
  have hb53 : (generate_text_hash (dupKey d5) == generate_text_hash (dupKey d3)) = false :=
    beq_eq_false_iff_ne.mpr (Ne.symm hne35)
  have hb52 : (generate_text_hash (dupKey d5) == generate_text_hash (dupKey d2)) = true :=
    beq_iff_eq.mpr h25.symm
  have hl5 : List.lookup (generate_text_hash (dupKey d5))
      [(generate_text_hash (dupKey d4), 4), (generate_text_hash (dupKey d3), 3),
       (generate_text_hash (dupKey d2), 2), (generate_text_hash (dupKey d1), 1),
       (generate_text_hash (dupKey d0), 0)] = some 2 := by
    simp [List.lookup, hb54, hb53, hb52]
  have hscan : detect_duplicates (d0 :: d1 :: d2 :: d3 :: d4 :: d5 :: rest) =
      (2, 5) :: detectDupAux rest 6
        [(generate_text_hash (dupKey d4), 4), (generate_text_hash (dupKey d3), 3),
         (generate_text_hash (dupKey d2), 2), (generate_text_hash (dupKey d1), 1),
         (generate_text_hash (dupKey d0), 0)] := by
    simp only [detect_duplicates, detectDupAux, if_neg hk0, if_neg hk1, if_neg hk2,
      if_neg hk3, if_neg hk4, if_neg hk5, hl0, hl1, hl2, hl3, hl4, hl5, Nat.reduceAdd]
  rw [hscan]
  have htail : detectDupAux rest 6
      [(generate_text_hash (dupKey d4), 4), (generate_text_hash (dupKey d3), 3),
       (generate_text_hash (dupKey d2), 2), (generate_text_hash (dupKey d1), 1),
       (generate_text_hash (dupKey d0), 0)] = [] := by
    apply detectDupAux_all_fresh
    · intro m d hm
      have hmem : d ∈ (d0 :: d1 :: d2 :: d3 :: d4 :: d5 :: rest) := by
        have := List.get?_mem hm
        simp [this]
      exact hkeys d hmem
    · intro m d hm e he
      obtain ⟨hmlt, hget⟩ := List.get?_eq_some.mp hm
      have hbig : (d0 :: d1 :: d2 :: d3 :: d4 :: d5 :: rest).get? (6 + m) = some d := by
        rw [get?_cons_six]
        exact hm
      obtain ⟨hmlt', hget'⟩ := List.get?_eq_some.mp hbig
      simp only [List.mem_cons, List.mem_singleton] at he
      rcases he with rfl | rfl | rfl | rfl | rfl | h
      · have := hp' 4 (6 + m) (hlen6 4 (by omega)) hmlt' (by omega) (by omega)
        rw [hget'] at this
        simpa using this
      · have := hp' 3 (6 + m) (hlen6 3 (by omega)) hmlt' (by omega) (by omega)
        rw [hget'] at this
        simpa using this
      · have := hp' 2 (6 + m) (hlen6 2 (by omega)) hmlt' (by omega) (by omega)
        rw [hget'] at this
        simpa using this
      · have := hp' 1 (6 + m) (hlen6 1 (by omega)) hmlt' (by omega) (by omega)
        rw [hget'] at this
        simpa using this
      · have := hp' 0 (6 + m) (hlen6 0 (by omega)) hmlt' (by omega) (by omega)
        rw [hget'] at this
        simpa using this
      · simp at h
    · intro m m' d d' hmm hm hm'
      have hbig : (d0 :: d1 :: d2 :: d3 :: d4 :: d5 :: rest).get? (6 + m) = some d := by
        rw [get?_cons_six]; exact hm
      have hbig' : (d0 :: d1 :: d2 :: d3 :: d4 :: d5 :: rest).get? (6 + m') = some d' := by
        rw [get?_cons_six]; exact hm'
      obtain ⟨hmlt, hget⟩ := List.get?_eq_some.mp hbig
      obtain ⟨hmlt', hget'⟩ := List.get?_eq_some.mp hbig'
      have := hp' (6 + m) (6 + m') hmlt hmlt' (by omega) (by omega)
      rw [hget, hget'] at this
      exact this
  rw [htail]

set_option maxRecDepth 1000000 in
/-- Witness for C8: six documents whose contents are pairwise distinct
except at indices 2 and 5 produce exactly the pair `(2, 5)`. -/
theorem detect_duplicates_single_pair_witness :
    detect_duplicates
      [⟨"aa", ""⟩, ⟨"bb", ""⟩, ⟨"cc", ""⟩, ⟨"dd", ""⟩, ⟨"ee", ""⟩, ⟨"cc", ""⟩] = [(2, 5)] :=
  detect_duplicates_single_pair
    [⟨"aa", ""⟩, ⟨"bb", ""⟩, ⟨"cc", ""⟩, ⟨"dd", ""⟩, ⟨"ee", ""⟩, ⟨"cc", ""⟩]
    (by decide) (by decide) (by decide)

/-- Helper: stable insertion only repositions the new element. -/
theorem insertScored_perm (x : Frac × String) :
    ∀ l : List (Frac × String), (insertScored x l).Perm (x :: l) := by
  intro l
  induction l with
  | nil => simp [insertScored]
  | cons y ys ih =>
      simp only [insertScored]
      split_ifs
      · exact List.Perm.refl _
      · exact ((ih.cons y).trans (List.Perm.swap x y ys))

/-- Helper: the stable descending sort is a permutation of its input. -/
theorem sortScoredDesc_perm :
    ∀ l : List (Frac × String), (sortScoredDesc l).Perm l := by
  intro l
  induction l with
  | nil => exact List.Perm.refl _
  | cons x xs ih =>
      exact (insertScored_perm x (sortScoredDesc xs)).trans (ih.cons x)

/-- Helper: filtering a duplicate-free list by membership in a
duplicate-free list keeps at most that many elements. -/
theorem filter_mem_length_le (l t : List String) (hl : l.Nodup) :
    (l.filter (fun s => t.contains s)).length ≤ t.length := by
  have hnd : (l.filter (fun s => t.contains s)).Nodup := hl.filter _
  have hsub : ∀ x ∈ l.filter (fun s => t.contains s), x ∈ t := by
    intro x hx
    have := (List.mem_filter.mp hx).2
    simpa using this
  calc (l.filter (fun s => t.contains s)).length
      = (l.filter (fun s => t.contains s)).toFinset.card :=
        (List.toFinset_card_of_nodup hnd).symm
    _ ≤ t.toFinset.card := by
        apply Finset.card_le_card
        intro x hx
        rw [List.mem_toFinset] at hx ⊢
        exact hsub x hx
    _ ≤ t.length := t.toFinset_card_le

/-- Counterexample to C7: on this five-sentence text (whose first and
third sentences coincide) the summary is the join of four sentence
occurrences — no subsequence of at most three sentences of the text
joins and truncates to it. -/
theorem extract_summary_four_sentences :
    (split_sentences summaryProbeText).length = 5 ∧
    extract_summary summaryProbeText 3 300 =
      "zebra quokka walrus orange orange orange orange orange melon zebra quokka walrus orange orange orange orange pumpkin apple" ∧
    ((split_sentences summaryProbeText).sublists.filter (fun sel => sel.length ≤ 3)).all
      (fun sel => !(truncateEllipsis (joinSpace sel) 300 ==
        "zebra quokka walrus orange orange orange orange orange melon zebra quokka walrus orange orange orange orange pumpkin apple")) = true := by
  refine ⟨by decide, by decide, by decide⟩

/-- C7 (amended).  For a text with five pairwise distinct sentences
and `max_sentences = 3`, the summary is the space-join of a
subsequence of the sentence list — sentences of the text in original
document order — of length at most 3, truncated at `max_length` with
an ellipsis when exceeded.  (Distinctness is needed: when a sentence
string repeats, the top-membership filter can keep more than three
occurrences, as the counterexample shows.) -/
theorem extract_summary_subsequence :
    ∀ t : String,
      (split_sentences t).length = 5 →
      (split_sentences t).Nodup →
      ∃ sel : List String,
        sel.Sublist (split_sentences t) ∧
        sel.length ≤ 3 ∧
        extract_summary t 3 300 = truncateEllipsis (joinSpace sel) 300 := by
  intro t hlen hnd
  have ht : ¬(t = "") := by
    intro h
    rw [h] at hlen
    simp [split_sentences] at hlen
  have hne : ¬(split_sentences t = []) := by
    intro h
    rw [h] at hlen
    simp at hlen
  have hgt : ¬((split_sentences t).length ≤ 3) := by omega
  refine ⟨(split_sentences t).filter (fun s =>
      (((sortScoredDesc ((split_sentences t).enum.map
        (fun p => (sentence_score (tokenize t) (split_sentences t).length p.1 p.2, p.2)))).take
          3).map (fun p => p.2)).contains s),
    List.filter_sublist _, ?_, ?_⟩
  · refine le_trans (filter_mem_length_le _ _ hnd) ?_
    rw [List.length_map]
    exact List.length_take_le _ _
  · simp only [extract_summary, if_neg ht, if_neg hne, if_neg hgt]

/-- Witness for C7 at a five-sentence text with pairwise distinct
sentences. -/
theorem extract_summary_subsequence_witness :
    ∃ sel : List String,
      sel.Sublist (split_sentences
        "alpha bravo charlie delta. echo foxtrot golf hotel. india juliet kilo lima. mike november oscar papa. quebec romeo sierra tango.") ∧
      sel.length ≤ 3 ∧
      extract_summary
        "alpha bravo charlie delta. echo foxtrot golf hotel. india juliet kilo lima. mike november oscar papa. quebec romeo sierra tango."
        3 300 = truncateEllipsis (joinSpace sel) 300 :=
  extract_summary_subsequence
    "alpha bravo charlie delta. echo foxtrot golf hotel. india juliet kilo lima. mike november oscar papa. quebec romeo sierra tango."
    (by decide) (by decide)

/-- Helper: the split scanner produces nonempty, whitespace-free
words. -/
theorem wordsAcc_wf :
    ∀ (l acc : List Char), (∀ c ∈ acc, pyWs c = false) → IsWordList (wordsAcc l acc) := by
  intro l
  induction l with
  | nil =>
      intro acc hacc
      simp only [wordsAcc]
      split_ifs with h
      · intro w hw
        simp at hw
      · intro w hw
        rcases List.mem_singleton.mp hw with rfl
        refine ⟨by simpa using h, ?_⟩
        intro c hc
        exact hacc c (List.mem_reverse.mp hc)
  | cons c cs ih =>
      intro acc hacc
      simp only [wordsAcc]
      split_ifs with h1 h2
      · exact ih [] (by simp)
      · intro w hw
        rcases List.mem_cons.mp hw with rfl | hw'
        · refine ⟨by simpa using h2, ?_⟩
          intro x hx
          exact hacc x (List.mem_reverse.mp hx)
        · exact ih [] (by simp) w hw'
      · apply ih
        intro x hx
        rcases List.mem_cons.mp hx with rfl | hx'
        · simpa using h1
        · exact hacc x hx'

/-- Helper: the scanner consumes a whitespace-free block into the
accumulator. -/
theorem wordsAcc_word :
    ∀ (w rest acc : List Char), (∀ c ∈ w, pyWs c = false) →
      wordsAcc (w ++ rest) acc = wordsAcc rest (w.reverse ++ acc) := by
  intro w
  induction w with
  | nil => intro rest acc _; simp
  | cons c w' ih =>
      intro rest acc hw
      have hc : pyWs c = false := hw c (List.mem_cons_self _ _)
      have hw' : ∀ x ∈ w', pyWs x = false := fun x hx => hw x (List.mem_cons_of_mem _ hx)
      simp only [List.cons_append, wordsAcc, hc, Bool.false_eq_true, if_false, List.append_eq]
      rw [ih rest (c :: acc) hw']
      simp

/-- Helper: the scanner closes the accumulated word at a space. -/
theorem wordsAcc_space (cs acc : List Char) (h : acc ≠ []) :
    wordsAcc (' ' :: cs) acc = acc.reverse :: wordsAcc cs [] := by
  simp [wordsAcc, pyWs, h]

/-- Helper: splitting the space-join of a word list recovers the word
list. -/
theorem wordsOf_spaceJoin :
    ∀ ls : List (List Char), IsWordList ls → wordsOf (spaceJoin ls) = ls := by
  intro ls
  induction ls with
  | nil => intro _; rfl
  | cons w ws ih =>
      intro h
      have hw : w ≠ [] ∧ ∀ c ∈ w, pyWs c = false := h w (List.mem_cons_self _ _)
      have hws : IsWordList ws := fun x hx => h x (List.mem_cons_of_mem _ hx)
      cases ws with
      | nil =>
          show wordsOf (spaceJoin [w]) = [w]
          have : spaceJoin [w] = w := rfl
          rw [this]
          unfold wordsOf
          have : w = w ++ [] := by simp
          rw [this, wordsAcc_word w [] [] (by simpa using hw.2)]
          simp only [wordsAcc]
          have hrev : w.reverse ++ [] ≠ [] := by simpa using hw.1
          rw [if_neg hrev]
          simp
      | cons w2 ws2 =>
          show wordsOf (w ++ ' ' :: spaceJoin (w2 :: ws2)) = w :: w2 :: ws2
          unfold wordsOf
          rw [wordsAcc_word w (' ' :: spaceJoin (w2 :: ws2)) [] hw.2]
          rw [wordsAcc_space _ _ (by simpa using hw.1)]
          simp only [List.append_nil, List.reverse_reverse]
          rw [show wordsAcc (spaceJoin (w2 :: ws2)) [] = wordsOf (spaceJoin (w2 :: ws2)) from rfl]
          rw [ih hws]

/-- Helper: collapsing runs of a non-space character distributes over
a space. -/
theorem collapse_space_cons (c : Char) (hc : c ≠ ' ') (ys : List Char) :
    collapseRuns c (' ' :: ys) = ' ' :: collapseRuns c ys := by
  cases ys with
  | nil => rfl
  | cons y ys' =>
      have : ¬(' ' = c ∧ y = c) := by
        intro h
        exact hc h.1.symm
      simp only [collapseRuns, if_neg this]

/-- Helper: collapsing runs of a non-space character distributes over
append at a space. -/
theorem collapse_append_space (c : Char) (hc : c ≠ ' ') :
    ∀ xs ys : List Char,
      collapseRuns c (xs ++ ' ' :: ys) = collapseRuns c xs ++ ' ' :: collapseRuns c ys := by
  intro xs
  induction xs with
  | nil =>
      intro ys
      simpa using collapse_space_cons c hc ys
  | cons x xs' ih =>
      intro ys
      cases xs' with
      | nil =>
          have hx : ¬(x = c ∧ ' ' = c) := by
            intro h
            exact hc h.2.symm
          simp only [List.cons_append, List.nil_append, collapseRuns, if_neg hx]
          rw [collapse_space_cons c hc ys]
      | cons x2 xs2 =>
          have hih := ih ys
          simp only [List.cons_append] at hih ⊢
          by_cases hxx : x = c ∧ x2 = c
          · simp only [collapseRuns, if_pos hxx]
            exact hih
          · simp only [collapseRuns, if_neg hxx]
            rw [hih]
            rfl

/-- Helper: collapsing runs distributes over the space-join. -/
theorem collapse_spaceJoin (c : Char) (hc : c ≠ ' ') :
    ∀ ls : List (List Char),
      collapseRuns c (spaceJoin ls) = spaceJoin (ls.map (collapseRuns c)) := by
  intro ls
  induction ls with
  | nil => rfl
  | cons w ws ih =>
      cases ws with
      | nil => rfl
      | cons w2 ws2 =>
          show collapseRuns c (w ++ ' ' :: spaceJoin (w2 :: ws2)) = _
          rw [collapse_append_space c hc, ih]
          rfl

/-- Helper: collapsing runs keeps a nonempty list nonempty. -/
theorem collapse_ne_nil (c : Char) :
    ∀ w : List Char, w ≠ [] → collapseRuns c w ≠ [] := by
  intro w
  induction w with
  | nil => intro h; exact absurd rfl h
  | cons x xs ih =>
      intro _
      cases xs with
      | nil => simp [collapseRuns]
      | cons y ys =>
          simp only [collapseRuns]
          split_ifs
          · exact ih (by simp)
          · simp

/-- Helper: collapsing runs only removes characters. -/
theorem collapse_mem_subset (c : Char) :
    ∀ (w : List Char) (x : Char), x ∈ collapseRuns c w → x ∈ w := by
  intro w
  induction w with
  | nil => intro x hx; simp [collapseRuns] at hx
  | cons a xs ih =>
      intro x hx
      cases xs with
      | nil => simpa [collapseRuns] using hx
      | cons y ys =>
          simp only [collapseRuns] at hx
          split_ifs at hx with h
          · exact List.mem_cons_of_mem _ (ih x hx)
          · rcases List.mem_cons.mp hx with rfl | hx'
            · exact List.mem_cons_self _ _
            · exact List.mem_cons_of_mem _ (ih x hx')

/-- Helper: collapsing runs preserves the word-list shape. -/
theorem IsWordList_map_collapse (c : Char) (ls : List (List Char)) (h : IsWordList ls) :
    IsWordList (ls.map (collapseRuns c)) := by
  intro w hw
  obtain ⟨v, hv, rfl⟩ := List.mem_map.mp hw
  obtain ⟨hv1, hv2⟩ := h v hv
  exact ⟨collapse_ne_nil c v hv1, fun x hx => hv2 x (collapse_mem_subset c v x hx)⟩

/-- Helper: collapsing runs preserves the head. -/
theorem collapse_headQ (c : Char) :
    ∀ l : List Char, (collapseRuns c l).head? = l.head? := by
  intro l
  induction l with
  | nil => rfl
  | cons x xs ih =>
      cases xs with
      | nil => rfl
      | cons y ys =>
          simp only [collapseRuns]
          split_ifs with h
          · rw [ih]
            simp [h.1, h.2]
          · rfl

/-- Helper: the output of a run collapse has no two adjacent copies of
the collapsed character. -/
theorem collapse_chain (c : Char) :
    ∀ l : List Char, List.Chain' (fun a b => ¬(a = c ∧ b = c)) (collapseRuns c l) := by
  intro l
  induction l with
  | nil => simp [collapseRuns]
  | cons x xs ih =>
      cases xs with
      | nil => simp [collapseRuns]
      | cons y ys =>
          simp only [collapseRuns]
          split_ifs with h
          · exact ih
          · rw [List.chain'_cons']
            refine ⟨?_, ih⟩
            intro z hz
            rw [collapse_headQ] at hz
            simp only [List.head?_cons, Option.mem_def, Option.some.injEq] at hz
            intro hcontra
            exact h ⟨hcontra.1, by rw [hz]; exact hcontra.2⟩

/-- Helper: a list with no two adjacent copies of `c` is a fixpoint of
the run collapse. -/
theorem collapse_fix_of_chain (c : Char) :
    ∀ l : List Char, List.Chain' (fun a b => ¬(a = c ∧ b = c)) l → collapseRuns c l = l := by
  intro l
  induction l with
  | nil => intro _; rfl
  | cons x xs ih =>
      intro h
      cases xs with
      | nil => rfl
      | cons y ys =>
          obtain ⟨hxy, htail⟩ := List.chain'_cons.mp h
          simp only [collapseRuns, if_neg hxy]
          rw [ih htail]

/-- Helper: collapsing runs of any character preserves the absence of
adjacent copies of `c`. -/
theorem collapse_chain_preserved (c d : Char) :
    ∀ l : List Char, List.Chain' (fun a b => ¬(a = c ∧ b = c)) l →
      List.Chain' (fun a b => ¬(a = c ∧ b = c)) (collapseRuns d l) := by
  intro l
  induction l with
  | nil => intro _; simp [collapseRuns]
  | cons x xs ih =>
      intro h
      cases xs with
      | nil => simp [collapseRuns]
      | cons y ys =>
          obtain ⟨hxy, htail⟩ := List.chain'_cons.mp h
          simp only [collapseRuns]
          split_ifs with hd
          · exact ih htail
          · rw [List.chain'_cons']
            refine ⟨?_, ih htail⟩
            intro z hz
            rw [collapse_headQ] at hz
            simp only [List.head?_cons, Option.mem_def, Option.some.injEq] at hz
            intro hcontra
            exact hxy ⟨hcontra.1, by rw [hz]; exact hcontra.2⟩

/-- Helper: the space-join of a nonempty word list starts with a
non-whitespace character. -/
theorem spaceJoin_head (w : List Char) (ws : List (List Char))
    (h : IsWordList (w :: ws)) :
    ∃ c cs, spaceJoin (w :: ws) = c :: cs ∧ pyWs c = false := by
  obtain ⟨hw1, hw2⟩ := h w (List.mem_cons_self _ _)
  obtain ⟨c, w', rfl⟩ : ∃ c w', w = c :: w' := by
    cases w with
    | nil => exact absurd rfl hw1
    | cons c w' => exact ⟨c, w', rfl⟩
  have hc : pyWs c = false := hw2 c (List.mem_cons_self _ _)
  cases ws with
  | nil => exact ⟨c, w', rfl, hc⟩
  | cons w2 ws2 => exact ⟨c, w' ++ ' ' :: spaceJoin (w2 :: ws2), rfl, hc⟩

/-- Helper: the space-join of a nonempty word list ends with a
non-whitespace character. -/
theorem spaceJoin_getLast (w : List Char) (ws : List (List Char))
    (h : IsWordList (w :: ws)) :
    ∃ c, (spaceJoin (w :: ws)).getLast? = some c ∧ pyWs c = false := by
  induction ws generalizing w with
  | nil =>
      obtain ⟨hw1, hw2⟩ := h w (List.mem_cons_self _ _)
      obtain ⟨c, cs, hrev⟩ : ∃ c cs, w.reverse = c :: cs := by
        cases hr : w.reverse with
        | nil => exact absurd (List.reverse_eq_nil_iff.mp hr) hw1
        | cons c cs => exact ⟨c, cs, rfl⟩
      have hmem : c ∈ w := List.mem_reverse.mp (by rw [hrev]; exact List.mem_cons_self _ _)
      refine ⟨c, ?_, hw2 c hmem⟩
      show w.getLast? = some c
      rw [← List.head?_reverse, hrev]
      rfl
  | cons w2 ws2 ih =>
      have h2 : IsWordList (w2 :: ws2) := fun x hx => h x (List.mem_cons_of_mem _ hx)
      obtain ⟨c, hc, hcw⟩ := ih w2 h2
      refine ⟨c, ?_, hcw⟩
      show (w ++ ' ' :: spaceJoin (w2 :: ws2)).getLast? = some c
      rw [List.getLast?_append_of_ne_nil _ (by simp)]
      obtain ⟨d, ds, hds, _⟩ := spaceJoin_head w2 ws2 h2
      rw [hds] at hc ⊢
      rw [List.getLast?_cons_cons]
      exact hc

/-- Helper: stripping is the identity on the space-join of a word
list. -/
theorem strip_spaceJoin :
    ∀ ls : List (List Char), IsWordList ls → stripChars (spaceJoin ls) = spaceJoin ls := by
  intro ls h
  cases ls with
  | nil => rfl
  | cons w ws =>
      obtain ⟨c, cs, hcons, hc⟩ := spaceJoin_head w ws h
      obtain ⟨e, hlast, he⟩ := spaceJoin_getLast w ws h
      unfold stripChars
      have hd : (spaceJoin (w :: ws)).dropWhile pyWs = spaceJoin (w :: ws) := by
        rw [hcons, List.dropWhile_cons, hc]
        simp
      rw [hd]
      have hh : (spaceJoin (w :: ws)).reverse.head? = some e := by
        rw [List.head?_reverse]
        exact hlast
      have hd2 : (spaceJoin (w :: ws)).reverse.dropWhile pyWs =
          (spaceJoin (w :: ws)).reverse := by
        cases hrev : (spaceJoin (w :: ws)).reverse with
        | nil => rfl
        | cons r rs =>
            rw [hrev] at hh
            have hre : r = e := by simpa using hh
            rw [List.dropWhile_cons, hre, he]
            simp
      rw [hd2, List.reverse_reverse]

/-- C6 (amended).  `clean_text` is idempotent on every text for which
the URL-removal and email-removal passes are no-ops, both on the
whitespace-collapsed input and on the whitespace-collapsed first
output.  (Without that proviso idempotence fails: removing a URL or
email from the interior leaves a doubled space that only the second
pass collapses, as the counterexample shows.) -/
theorem clean_text_idempotent_no_url_email :
    ∀ t : String,
      subUrl (wsCollapse t.data) = wsCollapse t.data →
      subEmail (wsCollapse t.data) = wsCollapse t.data →
      subUrl (wsCollapse (clean_text t).data) = wsCollapse (clean_text t).data →
      subEmail (wsCollapse (clean_text t).data) = wsCollapse (clean_text t).data →
      clean_text (clean_text t) = clean_text t := by
  intro t h1 h2 h3 h4
  by_cases ht : t = ""
  · rw [ht]
    rfl
  · have hA : IsWordList (wordsOf t.data) := wordsAcc_wf t.data [] (by simp)
    have hCwl : IsWordList ((((wordsOf t.data).map (collapseRuns '.')).map
        (collapseRuns '!')).map (collapseRuns '?')) :=
      IsWordList_map_collapse _ _ (IsWordList_map_collapse _ _ (IsWordList_map_collapse _ _ hA))
    have hWdef : wsCollapse t.data = spaceJoin (wordsOf t.data) := rfl
    have hC : collapseRuns '?' (collapseRuns '!' (collapseRuns '.' (wsCollapse t.data))) =
        spaceJoin ((((wordsOf t.data).map (collapseRuns '.')).map
          (collapseRuns '!')).map (collapseRuns '?')) := by
      rw [hWdef, collapse_spaceJoin '.' (by decide), collapse_spaceJoin '!' (by decide),
        collapse_spaceJoin '?' (by decide)]
    set X := spaceJoin ((((wordsOf t.data).map (collapseRuns '.')).map
      (collapseRuns '!')).map (collapseRuns '?')) with hXdef
    have hstrip : stripChars X = X := strip_spaceJoin _ hCwl
    have hct : clean_text t = ⟨X⟩ := by
      simp only [clean_text, if_neg ht, h1, h2]
      rw [hC, hstrip]
    have hdata : (clean_text t).data = X := by rw [hct]
    have hws : wsCollapse X = X := by
      unfold wsCollapse
      rw [hXdef, wordsOf_spaceJoin _ hCwl]
    have hchD : List.Chain' (fun a b => ¬(a = '.' ∧ b = '.')) X := by
      rw [← hC]
      exact collapse_chain_preserved _ _ _
        (collapse_chain_preserved _ _ _ (collapse_chain '.' _))
    have hchB : List.Chain' (fun a b => ¬(a = '!' ∧ b = '!')) X := by
      rw [← hC]
      exact collapse_chain_preserved _ _ _ (collapse_chain '!' _)
    have hchQ : List.Chain' (fun a b => ¬(a = '?' ∧ b = '?')) X := by
      rw [← hC]
      exact collapse_chain '?' _
    rw [hdata, hws] at h3 h4
    by_cases hX : X = []
    · have hempty : clean_text t = "" := by
        rw [hct, hX]
      rw [hempty]
      rfl
    · have hD : collapseRuns '.' X = X := collapse_fix_of_chain '.' X hchD
      have hB : collapseRuns '!' X = X := collapse_fix_of_chain '!' X hchB
      have hQ : collapseRuns '?' X = X := collapse_fix_of_chain '?' X hchQ
      rw [hct]
      have hXne : ¬((⟨X⟩ : String) = "") := by
        intro hcontra
        apply hX
        simpa using congrArg String.data hcontra
      simp only [clean_text, if_neg hXne]
      rw [hws, h3, h4, hD, hB, hQ, hstrip]

/-- Counterexample to C6: removing an interior URL leaves a doubled
space, which only the second cleaning pass collapses. -/
theorem clean_text_not_idempotent :
    clean_text (clean_text "a http://x b") ≠ clean_text "a http://x b" ∧
    clean_text "a http://x b" = "a  b" ∧
    clean_text (clean_text "a http://x b") = "a b" := by
  refine ⟨by decide, by decide, by decide⟩

/-- Witness for C6 (amended) at a text without URL or email matches. -/
theorem clean_text_idempotent_witness :
    clean_text (clean_text "Hello..  world!! Fine") = clean_text "Hello..  world!! Fine" :=
  clean_text_idempotent_no_url_email "Hello..  world!! Fine"
    (by decide) (by decide) (by decide) (by decide)
